import Mathlib

/-!
# Verification of the lab-group assignment program (`mkgrp.py`)

Shallow embedding of the core logic of `mkgrp.py`: the group taxonomy,
the `Student` record with its post-construction validation, and the
`DataBase.assign_groups` balanced-assignment pass.

The roster (a Python `dict` keyed by full name, iterated in insertion
order) is modelled as a `List Student`; mutation of students in place is
modelled by explicit state passing.  Python string operations used by the
code (`str.startswith`, slicing `[:2]`, f-string interpolation of `None`)
are modelled character-wise on `String.data`.
-/

namespace Mkgrp

/-- Python `f'{x}'` on an optional value: `None` renders as the string "None". -/
def pyOptStr : Option String → String
  | none => "None"
  | some s => s

/-- Python `s.startswith(p)`: `p` is a prefix of the characters of `s`. -/
def py_startswith (s p : String) : Bool :=
  s.data.take p.data.length == p.data

/-- Python slicing `s[:2]`: the first two characters of `s`. -/
def py_take2 (s : String) : String :=
  ⟨s.data.take 2⟩

/-- `MACRO_GROUPS = ['A1', 'B1', 'A2', 'B2']` -/
def MACRO_GROUPS : List String := ["A1", "B1", "A2", "B2"]

/-- `ROOM_GROUPS = [f'{grp}-{room}' ...]` -/
def ROOM_GROUPS : List String :=
  MACRO_GROUPS.flatMap fun grp => ([1, 2, 3] : List Nat).map fun room =>
    grp ++ "-" ++ toString room

/-- `GROUPS = [f'{grp}-{room}-{turn}' ...]`: the 24 leaf turn-group labels. -/
def GROUPS : List String :=
  MACRO_GROUPS.flatMap fun grp => ([1, 2, 3] : List Nat).flatMap fun room =>
    ([1, 2] : List Nat).map fun turn =>
      grp ++ "-" ++ toString room ++ "-" ++ toString turn

/-- The `Student` dataclass. `group` is the mutable `assignedGroup`,
initially `None`. -/
structure Student where
  name : String
  surname : String
  identifier : Nat
  email : String
  macro_group : String
  companion_name : Option String := none
  companion_surname : Option String := none
  notes : Option String := none
  group : Option String := none
  deriving Repr, DecidableEq

namespace Student

/-- `Student.full_name`: `f'{self.name} {self.surname}'`. -/
def full_name (s : Student) : String :=
  s.name ++ " " ++ s.surname

/-- `Student.companion_full_name`: `None` if both companion fields are
`None`, otherwise `f'{self.companion_name} {self.companion_surname}'`
(a `None` field is interpolated as the string "None"). -/
def companion_full_name (s : Student) : Option String :=
  if s.companion_name = none ∧ s.companion_surname = none then none
  else some (pyOptStr s.companion_name ++ " " ++ pyOptStr s.companion_surname)

/-- `Student.has_companion`: whether `companion_full_name` is not `None`. -/
def has_companion (s : Student) : Bool :=
  (companion_full_name s).isSome

end Student

open Student

/-- The expected macro-group computed in `Student.__post_init__`:
the `GROUP_CHANGES` override for the identifier if present, else
`MACRO_GROUPS[identifier % 4]`.  `GROUP_CHANGES` is external input
(read from a spreadsheet), modelled as an abstract finite mapping. -/
def expected_macro_group (chg : Nat → Option String) (ident : Nat) : String :=
  match chg ident with
  | some g => g
  | none => MACRO_GROUPS.getD (ident % 4) ""

/-- Whether `Student.__post_init__` logs the group-mismatch error. -/
def post_init_error (chg : Nat → Option String) (s : Student) : Bool :=
  s.macro_group ≠ expected_macro_group chg s.identifier

/-- Constructing a `Student`: construction always succeeds, the fields are
kept unchanged, and the Boolean records whether a validation error was
logged by `__post_init__`. -/
def mk_student (chg : Nat → Option String) (s : Student) : Student × Bool :=
  (s, post_init_error chg s)

/-- `DataBase.dict_subset`: the sub-dict of entries whose key starts with
the macro-group. -/
def dict_subset (c : List (String × Nat)) (macro_group : String) :
    List (String × Nat) :=
  c.filter fun kv => py_startswith kv.1 macro_group

/-- `min(d, key=d.get)` on a non-empty assoc list: the first key attaining
the minimum value (Python keeps the earlier element on ties). -/
def argminGo (k : String) (v : Nat) : List (String × Nat) → String
  | [] => k
  | (k', v') :: t => if v' < v then argminGo k' v' t else argminGo k v t

/-- `min(d, key=d.get)`: `none` models the `ValueError` on an empty dict. -/
def argmin : List (String × Nat) → Option String
  | [] => none
  | (k, v) :: t => some (argminGo k v t)

/-- In-place mutation `student.group = g` of the `i`-th roster entry. -/
def setGroup (r : List Student) (i : Nat) (g : String) : List Student :=
  match r[i]? with
  | none => r
  | some s => r.set i { s with group := some g }

/-- `count_dict[g] += 1`. -/
def incr (c : List (String × Nat)) (g : String) : List (String × Nat) :=
  c.map fun kv => if kv.1 = g then (kv.1, kv.2 + 1) else kv

/-- Value lookup in the count dict. -/
def lookupCount (c : List (String × Nat)) (g : String) : Nat :=
  match c.find? fun kv => kv.1 = g with
  | some kv => kv.2
  | none => 0

/-- Dict lookup `self[full_name]`: the index of the student with the given
full name (the roster, built as a dict keyed by full name, has at most one). -/
def findIdxByName (r : List Student) (nm : String) : Option Nat :=
  r.findIdx? fun s => full_name s == nm

/-- The ways `assign_groups` can raise at runtime: `min` over an empty
subset (`ValueError`), the `assert group[:2] == student.macro_group`
failing (`AssertionError`), and `self[companion_full_name]` missing
(`KeyError`). -/
inductive AssignErr where
  | emptyMin
  | assertFail
  | companionMissing
  deriving Repr, DecidableEq

/-- One iteration of the `assign_groups` loop body, at roster index `i`.
Returns the roster and counts after the iteration, plus the error if the
iteration raised (the state then reflects the mutations already made). -/
def assignStep (r : List Student) (c : List (String × Nat)) (i : Nat) :
    List Student × List (String × Nat) × Option AssignErr :=
  match r[i]? with
  | none => (r, c, none)
  | some s =>
    if s.group.isSome then (r, c, none)
    else
      match argmin (dict_subset c s.macro_group) with
      | none => (r, c, some .emptyMin)
      | some g =>
        if py_take2 g ≠ s.macro_group then (r, c, some .assertFail)
        else
          let r1 := setGroup r i g
          let c1 := incr c g
          match companion_full_name s with
          | none => (r1, c1, none)
          | some cfn =>
            match findIdxByName r1 cfn with
            | none => (r1, c1, some .companionMissing)
            | some j =>
              match r1[j]? with
              | none => (r1, c1, none)
              | some comp =>
                if comp.group.isSome then (r1, c1, none)
                else (setGroup r1 j g, incr c1 g, none)

/-- The `assign_groups` loop over the given roster indices, stopping at the
first raised error. -/
def assignLoop (idxs : List Nat) (r : List Student) (c : List (String × Nat)) :
    List Student × List (String × Nat) × Option AssignErr :=
  match idxs with
  | [] => (r, c, none)
  | i :: rest =>
    match assignStep r c i with
    | (r', c', none) => assignLoop rest r' c'
    | (r', c', some e) => (r', c', some e)

/-- The initial `count_dict = {grp : 0 for grp in GROUPS}`. -/
def initCounts : List (String × Nat) :=
  GROUPS.map fun g => (g, 0)

/-- `DataBase.assign_groups` (the assignment pass; the spreadsheet output is
I/O and out of scope).  Returns the final roster, the returned
`count_dict`, and the error if the pass raised. -/
def assign_groups (r : List Student) :
    List Student × List (String × Nat) × Option AssignErr :=
  assignLoop (List.range r.length) r initCounts

/-- A run step only ever turns an unset `group` into a set one and never
touches the other fields.  `clearGroup` erases the mutable field so the
immutable part can be compared. -/
def clearGroup (s : Student) : Student :=
  { s with group := none }

/-- `s'` is the same student as `s`, with possibly more assignment: all
immutable fields agree and a set `group` is preserved. -/
def StuExt (s s' : Student) : Prop :=
  clearGroup s' = clearGroup s ∧ ∀ g, s.group = some g → s'.group = some g

/-- `r'` is the roster `r` later in the run: same students entrywise, each
extended. -/
def RosExt (r r' : List Student) : Prop :=
  r'.length = r.length ∧
    ∀ (i : Nat) (s : Student), r[i]? = some s → ∃ s', r'[i]? = some s' ∧ StuExt s s'

/-- Exhaustive description of one loop iteration: either the student slot
is out of range or already assigned (no-op), or the iteration raises, or it
assigns the min-count group, possibly also to the companion. -/
def StepSpec (r : List Student) (c : List (String × Nat)) (i : Nat)
    (out : List Student × List (String × Nat) × Option AssignErr) : Prop :=
  ((r[i]? = none ∨ ∃ s, r[i]? = some s ∧ s.group.isSome) ∧ out = (r, c, none))
  ∨ (∃ s, r[i]? = some s ∧ s.group = none ∧
      argmin (dict_subset c s.macro_group) = none ∧ out = (r, c, some .emptyMin))
  ∨ (∃ s g, r[i]? = some s ∧ s.group = none ∧
      argmin (dict_subset c s.macro_group) = some g ∧ py_take2 g ≠ s.macro_group ∧
      out = (r, c, some .assertFail))
  ∨ (∃ s g, r[i]? = some s ∧ s.group = none ∧
      argmin (dict_subset c s.macro_group) = some g ∧ py_take2 g = s.macro_group ∧
      ((companion_full_name s = none ∧ out = (setGroup r i g, incr c g, none))
       ∨ (∃ cfn, companion_full_name s = some cfn ∧
            findIdxByName (setGroup r i g) cfn = none ∧
            out = (setGroup r i g, incr c g, some .companionMissing))
       ∨ (∃ cfn j, companion_full_name s = some cfn ∧
            findIdxByName (setGroup r i g) cfn = some j ∧
            (setGroup r i g)[j]? = none ∧ out = (setGroup r i g, incr c g, none))
       ∨ (∃ cfn j comp, companion_full_name s = some cfn ∧
            findIdxByName (setGroup r i g) cfn = some j ∧
            (setGroup r i g)[j]? = some comp ∧ comp.group.isSome ∧
            out = (setGroup r i g, incr c g, none))
       ∨ (∃ cfn j comp, companion_full_name s = some cfn ∧
            findIdxByName (setGroup r i g) cfn = some j ∧
            (setGroup r i g)[j]? = some comp ∧ comp.group = none ∧
            out = (setGroup (setGroup r i g) j g, incr (incr c g) g, none))))

/-- Occupancies of any two turn-groups of one macro-group differ by at
most `B`. -/
def Spread (B : Nat) (c : List (String × Nat)) : Prop :=
  ∀ m ∈ MACRO_GROUPS, ∀ g g', g ∈ c.map Prod.fst → g' ∈ c.map Prod.fst →
    py_startswith g m = true → py_startswith g' m = true →
    lookupCount c g ≤ lookupCount c g' + B

/-- Every assigned group's first two characters are the student's declared
macro-group. -/
def PrefixOk (r : List Student) : Prop :=
  ∀ s ∈ r, ∀ g, s.group = some g → py_take2 g = s.macro_group

/-- Every companion reference in the roster links students that declare the
same macro-group. -/
def SameMacroPairs (r : List Student) : Prop :=
  ∀ s ∈ r, ∀ t ∈ r, companion_full_name s = some (full_name t) →
    t.macro_group = s.macro_group

/-- Number of roster students currently assigned to turn-group `g`. -/
def occ (r : List Student) (g : String) : Nat :=
  r.countP fun s => s.group == some g

/-- Four unpaired students, all declaring macro-group A1 (§8 scenario). -/
def fourA1 : List Student :=
  [{ name := "Uno", surname := "Verdi", identifier := 4, email := "u@x",
     macro_group := "A1" },
   { name := "Due", surname := "Neri", identifier := 8, email := "d@x",
     macro_group := "A1" },
   { name := "Tre", surname := "Gialli", identifier := 12, email := "t@x",
     macro_group := "A1" },
   { name := "Quattro", surname := "Blu", identifier := 16, email := "q@x",
     macro_group := "A1" }]

/-- "Alice Rossi", macro-group B2, paired with "Bob Bianchi" (§8 scenario). -/
def aliceB2 : Student :=
  { name := "Alice", surname := "Rossi", identifier := 6, email := "a@x",
    macro_group := "B2", companion_name := some "Bob",
    companion_surname := some "Bianchi" }

/-- "Bob Bianchi", macro-group B2, paired with "Alice Rossi" (§8 scenario). -/
def bobB2 : Student :=
  { name := "Bob", surname := "Bianchi", identifier := 10, email := "b@x",
    macro_group := "B2", companion_name := some "Alice",
    companion_surname := some "Rossi" }

/-- The two-student mutual-pair roster of the §8 scenario. -/
def mutualRoster : List Student := [aliceB2, bobB2]

/-- A third student who also declares "Bob Bianchi" as companion (not
reciprocated). -/
def carlB2 : Student :=
  { name := "Carl", surname := "Verdi", identifier := 2, email := "c@x",
    macro_group := "B2", companion_name := some "Bob",
    companion_surname := some "Bianchi" }

/-- Roster in which a third student pre-empts one member of a mutual pair. -/
def c5Roster : List Student := [carlB2, aliceB2, bobB2]

/-- "Alice Rossi" declaring macro-group A1 but paired with B2's
"Bob Bianchi": a cross-macro-group companion pair. -/
def aliceA1 : Student :=
  { name := "Alice", surname := "Rossi", identifier := 4, email := "a@x",
    macro_group := "A1", companion_name := some "Bob",
    companion_surname := some "Bianchi" }

/-- Cross-macro-group mutual pair roster. -/
def crossRoster : List Student := [aliceA1, bobB2]

/-- A student whose declared companion is absent from the roster. -/
def ghostStudent : Student :=
  { name := "Dana", surname := "Blu", identifier := 2, email := "d@x",
    macro_group := "A2", companion_name := some "Ghost",
    companion_surname := some "Person" }

/-- Roster with a dangling companion reference. -/
def ghostRoster : List Student := [ghostStudent]

/-- A student declaring a macro-group outside the four labels. -/
def badMacStudent : Student :=
  { name := "Eve", surname := "Gialli", identifier := 1, email := "e@x",
    macro_group := "C9" }

/-- A student whose `group` is already set before `assign_groups` runs. -/
def preassignedStudent : Student :=
  { name := "Pre", surname := "Assigned", identifier := 4, email := "p@x",
    macro_group := "A1", group := some "A1-1-1" }

/-- Roster with one pre-assigned student. -/
def preassignedRoster : List Student := [preassignedStudent]

/-- A student with exactly one of the two companion fields set. -/
def oneFieldStu : Student :=
  { name := "Solo", surname := "Campo", identifier := 4, email := "s@x",
    macro_group := "A1", companion_name := some "Bob" }

/-- An example override table (identifier 42 overridden to B2). -/
def chg0 : Nat → Option String :=
  fun n => if n = 42 then some "B2" else none

/-- Identifier 17, no override entry (§8 scenario). -/
def stu17 : Student :=
  { name := "Mario", surname := "Rossi", identifier := 17, email := "m@x",
    macro_group := "A1" }

theorem stuExtRefl (s : Student) : StuExt s s :=
  ⟨rfl, fun _ h => h⟩

theorem stuExtTrans {s t u : Student} (h1 : StuExt s t) (h2 : StuExt t u) :
    StuExt s u :=
  ⟨h2.1.trans h1.1, fun g hg => h2.2 g (h1.2 g hg)⟩

theorem StuExt.name_eq {s s' : Student} (h : StuExt s s') : s'.name = s.name := by
  have h' := congrArg Student.name h.1
  exact h'

theorem StuExt.surname_eq {s s' : Student} (h : StuExt s s') :
    s'.surname = s.surname := by
  have h' := congrArg Student.surname h.1
  exact h'

theorem StuExt.macro_group_eq {s s' : Student} (h : StuExt s s') :
    s'.macro_group = s.macro_group := by
  have h' := congrArg Student.macro_group h.1
  exact h'

theorem StuExt.companion_name_eq {s s' : Student} (h : StuExt s s') :
    s'.companion_name = s.companion_name := by
  have h' := congrArg Student.companion_name h.1
  exact h'

theorem StuExt.companion_surname_eq {s s' : Student} (h : StuExt s s') :
    s'.companion_surname = s.companion_surname := by
  have h' := congrArg Student.companion_surname h.1
  exact h'

theorem StuExt.full_name_eq {s s' : Student} (h : StuExt s s') :
    full_name s' = full_name s := by
  unfold Student.full_name
  rw [h.name_eq, h.surname_eq]

theorem StuExt.companion_full_name_eq {s s' : Student} (h : StuExt s s') :
    companion_full_name s' = companion_full_name s := by
  unfold Student.companion_full_name
  rw [h.companion_name_eq, h.companion_surname_eq]

theorem rosExtRefl (r : List Student) : RosExt r r :=
  ⟨rfl, fun _ s h => ⟨s, h, stuExtRefl s⟩⟩

theorem rosExtTrans {r₁ r₂ r₃ : List Student} (h1 : RosExt r₁ r₂)
    (h2 : RosExt r₂ r₃) : RosExt r₁ r₃ := by
  refine ⟨h2.1.trans h1.1, fun i s hs => ?_⟩
  obtain ⟨t, ht, hst⟩ := h1.2 i s hs
  obtain ⟨u, hu, htu⟩ := h2.2 i t ht
  exact ⟨u, hu, stuExtTrans hst htu⟩

theorem length_setGroup (r : List Student) (i : Nat) (g : String) :
    (setGroup r i g).length = r.length := by
  unfold setGroup
  cases h : r[i]? <;> simp

theorem getElem?_setGroup_self {r : List Student} {i : Nat} {s : Student}
    (g : String) (h : r[i]? = some s) :
    (setGroup r i g)[i]? = some { s with group := some g } := by
  unfold setGroup
  rw [h]
  obtain ⟨hlt, -⟩ := List.getElem?_eq_some_iff.mp h
  simp [hlt]

theorem getElem?_setGroup_ne {r : List Student} {i j : Nat} (g : String)
    (h : i ≠ j) : (setGroup r i g)[j]? = r[j]? := by
  unfold setGroup
  cases hr : r[i]? with
  | none => rfl
  | some s => rw [List.getElem?_set_ne h]

theorem setGroup_ext {r : List Student} {i : Nat} {s : Student} (g : String)
    (hi : r[i]? = some s) (hs : s.group = none) : RosExt r (setGroup r i g) := by
  refine ⟨length_setGroup r i g, fun j t ht => ?_⟩
  by_cases hij : i = j
  · subst hij
    have := getElem?_setGroup_self g hi
    rw [hi] at ht
    cases ht
    exact ⟨_, this, ⟨rfl, fun g' hg' => by rw [hs] at hg'; cases hg'⟩⟩
  · exact ⟨t, by rw [getElem?_setGroup_ne g hij]; exact ht, stuExtRefl t⟩

theorem map_fst_incr (c : List (String × Nat)) (g : String) :
    (incr c g).map Prod.fst = c.map Prod.fst := by
  unfold incr
  rw [List.map_map]
  apply List.map_congr_left
  intro kv _
  by_cases h : kv.1 = g <;> simp [h]

theorem find?_incr (c : List (String × Nat)) (g g' : String) :
    (incr c g).find? (fun kv => kv.1 = g') =
      (c.find? (fun kv => kv.1 = g')).map
        (fun kv => if kv.1 = g then (kv.1, kv.2 + 1) else kv) := by
  unfold incr
  rw [List.find?_map]
  have hp : ((fun kv => decide (kv.1 = g')) ∘
      fun (kv : String × Nat) => if kv.1 = g then (kv.1, kv.2 + 1) else kv) =
      fun kv => decide (kv.1 = g') := by
    funext kv
    by_cases h : kv.1 = g <;> simp [h, Function.comp]
  rw [hp]

theorem lookupCount_incr_ne (c : List (String × Nat)) {g g' : String}
    (h : g' ≠ g) : lookupCount (incr c g) g' = lookupCount c g' := by
  unfold lookupCount
  rw [find?_incr]
  cases hf : c.find? (fun kv => kv.1 = g') with
  | none => rfl
  | some kv =>
    have hkv : kv.1 = g' := by
      have := List.find?_some hf
      simpa using this
    simp [hkv, h]

theorem lookupCount_incr_self (c : List (String × Nat)) {g : String}
    (h : g ∈ c.map Prod.fst) : lookupCount (incr c g) g = lookupCount c g + 1 := by
  unfold lookupCount
  rw [find?_incr]
  obtain ⟨kv, hkv, hfst⟩ := List.mem_map.mp h
  cases hf : c.find? (fun kv => kv.1 = g) with
  | none =>
    exfalso
    have : (c.find? (fun kv => kv.1 = g)).isSome := by
      rw [List.find?_isSome]
      exact ⟨kv, hkv, by simp [hfst]⟩
    rw [hf] at this
    simp at this
  | some kv' =>
    have hkv' : kv'.1 = g := by
      have := List.find?_some hf
      simpa using this
    simp [hkv']

theorem argminGo_first (t : List (String × Nat)) (k : String) (v : Nat) :
    ∃ pre w post, (k, v) :: t = pre ++ (argminGo k v t, w) :: post ∧
      (∀ kv ∈ (k, v) :: t, w ≤ kv.2) ∧ (∀ kv ∈ pre, w < kv.2) := by
  induction t generalizing k v with
  | nil =>
    exact ⟨[], v, [], rfl, by simp, by simp⟩
  | cons kv' t' ih =>
    obtain ⟨k', v'⟩ := kv'
    by_cases h : v' < v
    · obtain ⟨pre, w, post, heq, hmin, hpre⟩ := ih k' v'
      have hw_le : w ≤ v' := hmin (k', v') (List.mem_cons_self _ _)
      refine ⟨(k, v) :: pre, w, post, ?_, ?_, ?_⟩
      · simp only [argminGo, if_pos h]
        rw [List.cons_append, heq]
      · intro kv hkv
        rcases List.mem_cons.mp hkv with rfl | hkv
        · exact le_of_lt (lt_of_le_of_lt hw_le h)
        · exact hmin kv hkv
      · intro kv hkv
        rcases List.mem_cons.mp hkv with rfl | hkv
        · exact lt_of_le_of_lt hw_le h
        · exact hpre kv hkv
    · obtain ⟨pre, w, post, heq, hmin, hpre⟩ := ih k v
      have hv_le : v ≤ v' := le_of_not_lt h
      cases pre with
      | nil =>
        simp only [List.nil_append] at heq
        obtain ⟨hkw, hpost⟩ := List.cons.injEq _ _ _ _ ▸ heq
        have hk : argminGo k v t' = k := (Prod.mk.injEq _ _ _ _ ▸ hkw).1.symm
        have hv : w = v := (Prod.mk.injEq _ _ _ _ ▸ hkw).2.symm
        refine ⟨[], v, (k', v') :: t', ?_, ?_, by simp⟩
        · simp only [argminGo, if_neg h, List.nil_append]
          rw [hk]
        · intro kv hkv
          rcases List.mem_cons.mp hkv with rfl | hkv
          · exact le_refl _
          · rcases List.mem_cons.mp hkv with rfl | hkv
            · exact hv_le
            · exact hv ▸ hmin kv (List.mem_cons_of_mem _ (hpost ▸ hkv))
      | cons kv₀ pre'' =>
        have heq' := heq
        rw [List.cons_append] at heq'
        have hhead : (k, v) = kv₀ := (List.cons.injEq _ _ _ _ ▸ heq').1
        have htail : t' = pre'' ++ (argminGo k v t', w) :: post :=
          (List.cons.injEq _ _ _ _ ▸ heq').2
        have hwv : w < v := by
          have := hpre kv₀ (List.mem_cons_self _ _)
          rw [← hhead] at this
          exact this
        refine ⟨(k, v) :: (k', v') :: pre'', w, post, ?_, ?_, ?_⟩
        · simp only [argminGo, if_neg h]
          conv_lhs => rw [htail]
          simp
        · intro kv hkv
          rcases List.mem_cons.mp hkv with rfl | hkv
          · exact hmin (k, v) (List.mem_cons_self _ _)
          · rcases List.mem_cons.mp hkv with rfl | hkv
            · exact le_of_lt (Nat.lt_of_lt_of_le hwv hv_le)
            · exact hmin kv (List.mem_cons_of_mem _ (htail ▸ hkv))
        · intro kv hkv
          rcases List.mem_cons.mp hkv with rfl | hkv
          · exact hwv
          · rcases List.mem_cons.mp hkv with rfl | hkv
            · exact Nat.lt_of_lt_of_le hwv hv_le
            · exact hpre kv (hhead ▸ List.mem_cons_of_mem _ hkv)

theorem argmin_first {l : List (String × Nat)} {g : String}
    (h : argmin l = some g) :
    ∃ pre w post, l = pre ++ (g, w) :: post ∧
      (∀ kv ∈ l, w ≤ kv.2) ∧ (∀ kv ∈ pre, w < kv.2) := by
  cases l with
  | nil => cases h
  | cons kv t =>
    obtain ⟨k, v⟩ := kv
    have hg : argminGo k v t = g := by
      simpa [argmin] using h
    obtain ⟨pre, w, post, heq, hmin, hpre⟩ := argminGo_first t k v
    subst hg
    exact ⟨pre, w, post, heq, hmin, hpre⟩

theorem argmin_mem_val {l : List (String × Nat)} {g : String}
    (h : argmin l = some g) :
    ∃ w, (g, w) ∈ l ∧ ∀ kv ∈ l, w ≤ kv.2 := by
  obtain ⟨pre, w, post, heq, hmin, -⟩ := argmin_first h
  exact ⟨w, heq ▸ List.mem_append_right pre (List.mem_cons_self _ _), hmin⟩

theorem argmin_eq_none {l : List (String × Nat)} :
    argmin l = none ↔ l = [] := by
  cases l <;> simp [argmin]

theorem lookupCount_eq_of_mem {c : List (String × Nat)} {g : String} {w : Nat}
    (hnd : (c.map Prod.fst).Nodup) (hmem : (g, w) ∈ c) :
    lookupCount c g = w := by
  induction c with
  | nil => cases hmem
  | cons kv t ih =>
    rw [List.map_cons, List.nodup_cons] at hnd
    by_cases hk : kv.1 = g
    · have hkv : kv = (g, w) := by
        rcases List.mem_cons.mp hmem with h | h
        · exact h.symm
        · exfalso
          apply hnd.1
          rw [hk]
          exact List.mem_map.mpr ⟨(g, w), h, rfl⟩
      unfold lookupCount
      rw [List.find?_cons_of_pos _ (by simp [hk])]
      rw [hkv]
    · have hmem' : (g, w) ∈ t := by
        rcases List.mem_cons.mp hmem with h | h
        · exact absurd (congrArg Prod.fst h.symm) hk
        · exact h
      unfold lookupCount
      rw [List.find?_cons_of_neg _ (by simp [hk])]
      exact ih hnd.2 hmem'

theorem mem_dict_subset {c : List (String × Nat)} {m : String}
    {kv : String × Nat} :
    kv ∈ dict_subset c m ↔ kv ∈ c ∧ py_startswith kv.1 m = true := by
  unfold dict_subset
  exact List.mem_filter

theorem findIdxByName_some {r : List Student} {nm : String} {j : Nat}
    (h : findIdxByName r nm = some j) :
    ∃ s, r[j]? = some s ∧ full_name s = nm := by
  unfold findIdxByName at h
  obtain ⟨hlt, hp, -⟩ := List.findIdx?_eq_some_iff_getElem.mp h
  refine ⟨r[j], by simp [hlt], by simpa using hp⟩

theorem GROUPS_nodup : GROUPS.Nodup := by decide

theorem macro_has_group : ∀ m ∈ MACRO_GROUPS,
    ∃ g ∈ GROUPS, py_startswith g m = true := by decide

theorem groups_startswith_take2 : ∀ g ∈ GROUPS, ∀ m ∈ MACRO_GROUPS,
    py_startswith g m = true → py_take2 g = m := by decide

theorem assignStep_spec (r : List Student) (c : List (String × Nat)) (i : Nat) :
    StepSpec r c i (assignStep r c i) := by
  unfold StepSpec
  cases hri : r[i]? with
  | none =>
    have hstep : assignStep r c i = (r, c, none) := by
      simp [assignStep, hri]
    rw [hstep]
    exact Or.inl ⟨Or.inl rfl, rfl⟩
  | some s =>
    cases hg : s.group with
    | some g0 =>
      have hstep : assignStep r c i = (r, c, none) := by
        simp [assignStep, hri, hg]
      rw [hstep]
      exact Or.inl ⟨Or.inr ⟨s, rfl, by simp [hg]⟩, rfl⟩
    | none =>
      cases ha : argmin (dict_subset c s.macro_group) with
      | none =>
        have hstep : assignStep r c i = (r, c, some .emptyMin) := by
          simp [assignStep, hri, hg, ha]
        rw [hstep]
        exact Or.inr (Or.inl ⟨s, rfl, hg, ha, rfl⟩)
      | some g =>
        by_cases ht : py_take2 g = s.macro_group
        · cases hc : companion_full_name s with
          | none =>
            have hstep : assignStep r c i = (setGroup r i g, incr c g, none) := by
              simp [assignStep, hri, hg, ha, ht, hc]
            rw [hstep]
            exact Or.inr (Or.inr (Or.inr ⟨s, g, rfl, hg, ha, ht,
              Or.inl ⟨hc, rfl⟩⟩))
          | some cfn =>
            cases hf : findIdxByName (setGroup r i g) cfn with
            | none =>
              have hstep : assignStep r c i =
                  (setGroup r i g, incr c g, some .companionMissing) := by
                simp [assignStep, hri, hg, ha, ht, hc, hf]
              rw [hstep]
              exact Or.inr (Or.inr (Or.inr ⟨s, g, rfl, hg, ha, ht,
                Or.inr (Or.inl ⟨cfn, hc, hf, rfl⟩)⟩))
            | some j =>
              cases hj : (setGroup r i g)[j]? with
              | none =>
                have hstep : assignStep r c i =
                    (setGroup r i g, incr c g, none) := by
                  simp [assignStep, hri, hg, ha, ht, hc, hf, hj]
                rw [hstep]
                exact Or.inr (Or.inr (Or.inr ⟨s, g, rfl, hg, ha, ht,
                  Or.inr (Or.inr (Or.inl ⟨cfn, j, hc, hf, hj, rfl⟩))⟩))
              | some comp =>
                cases hcg : comp.group with
                | some gc =>
                  have hstep : assignStep r c i =
                      (setGroup r i g, incr c g, none) := by
                    simp [assignStep, hri, hg, ha, ht, hc, hf, hj, hcg]
                  rw [hstep]
                  exact Or.inr (Or.inr (Or.inr ⟨s, g, rfl, hg, ha, ht,
                    Or.inr (Or.inr (Or.inr (Or.inl ⟨cfn, j, comp, hc, hf, hj,
                      by simp [hcg], rfl⟩)))⟩))
                | none =>
                  have hstep : assignStep r c i =
                      (setGroup (setGroup r i g) j g, incr (incr c g) g,
                        none) := by
                    simp [assignStep, hri, hg, ha, ht, hc, hf, hj, hcg]
                  rw [hstep]
                  exact Or.inr (Or.inr (Or.inr ⟨s, g, rfl, hg, ha, ht,
                    Or.inr (Or.inr (Or.inr (Or.inr ⟨cfn, j, comp, hc, hf, hj,
                      hcg, rfl⟩)))⟩))
        · have hstep : assignStep r c i = (r, c, some .assertFail) := by
            simp [assignStep, hri, hg, ha, ht]
          rw [hstep]
          exact Or.inr (Or.inr (Or.inl ⟨s, g, rfl, hg, ha, ht, rfl⟩))

theorem assignStep_ext (r : List Student) (c : List (String × Nat)) (i : Nat) :
    RosExt r (assignStep r c i).1 := by
  rcases assignStep_spec r c i with ⟨-, hout⟩ | ⟨s, hri, hg, ha, hout⟩ |
    ⟨s, g, hri, hg, ha, ht, hout⟩ | ⟨s, g, hri, hg, ha, ht, hcase⟩
  · rw [hout]
    exact rosExtRefl r
  · rw [hout]
    exact rosExtRefl r
  · rw [hout]
    exact rosExtRefl r
  · rcases hcase with ⟨-, hout⟩ | ⟨cfn, -, -, hout⟩ | ⟨cfn, j, -, -, -, hout⟩ |
      ⟨cfn, j, comp, -, -, -, -, hout⟩ | ⟨cfn, j, comp, -, -, hj, hcg, hout⟩
    · rw [hout]
      exact setGroup_ext g hri hg
    · rw [hout]
      exact setGroup_ext g hri hg
    · rw [hout]
      exact setGroup_ext g hri hg
    · rw [hout]
      exact setGroup_ext g hri hg
    · rw [hout]
      exact rosExtTrans (setGroup_ext g hri hg) (setGroup_ext g hj hcg)

theorem assignStep_length (r : List Student) (c : List (String × Nat))
    (i : Nat) : (assignStep r c i).1.length = r.length :=
  (assignStep_ext r c i).1

theorem assignStep_keys (r : List Student) (c : List (String × Nat)) (i : Nat) :
    ((assignStep r c i).2.1).map Prod.fst = c.map Prod.fst := by
  rcases assignStep_spec r c i with ⟨-, hout⟩ | ⟨s, hri, hg, ha, hout⟩ |
    ⟨s, g, hri, hg, ha, ht, hout⟩ | ⟨s, g, hri, hg, ha, ht, hcase⟩
  · rw [hout]
  · rw [hout]
  · rw [hout]
  · rcases hcase with ⟨-, hout⟩ | ⟨cfn, -, -, hout⟩ | ⟨cfn, j, -, -, -, hout⟩ |
      ⟨cfn, j, comp, -, -, -, -, hout⟩ | ⟨cfn, j, comp, -, -, -, -, hout⟩ <;>
    · rw [hout]
      simp [map_fst_incr]

theorem assignLoop_cons_ok {r r' : List Student} {c c' : List (String × Nat)}
    {i : Nat} (rest : List Nat) (h : assignStep r c i = (r', c', none)) :
    assignLoop (i :: rest) r c = assignLoop rest r' c' := by
  simp [assignLoop, h]

theorem assignLoop_cons_err {r r' : List Student} {c c' : List (String × Nat)}
    {i : Nat} {e : AssignErr} (rest : List Nat)
    (h : assignStep r c i = (r', c', some e)) :
    assignLoop (i :: rest) r c = (r', c', some e) := by
  simp [assignLoop, h]

theorem assignLoop_ext (idxs : List Nat) (r : List Student)
    (c : List (String × Nat)) : RosExt r (assignLoop idxs r c).1 := by
  induction idxs generalizing r c with
  | nil => exact rosExtRefl r
  | cons i rest ih =>
    obtain ⟨⟨r', c', e⟩, hstep⟩ :
        ∃ out, assignStep r c i = out := ⟨_, rfl⟩
    have hext : RosExt r r' := by
      have := assignStep_ext r c i
      rw [hstep] at this
      exact this
    cases e with
    | none =>
      rw [assignLoop_cons_ok rest hstep]
      exact rosExtTrans hext (ih r' c')
    | some e =>
      rw [assignLoop_cons_err rest hstep]
      exact hext

theorem assignLoop_keys (idxs : List Nat) (r : List Student)
    (c : List (String × Nat)) :
    ((assignLoop idxs r c).2.1).map Prod.fst = c.map Prod.fst := by
  induction idxs generalizing r c with
  | nil => rfl
  | cons i rest ih =>
    obtain ⟨⟨r', c', e⟩, hstep⟩ :
        ∃ out, assignStep r c i = out := ⟨_, rfl⟩
    have hkeys : c'.map Prod.fst = c.map Prod.fst := by
      have := assignStep_keys r c i
      rw [hstep] at this
      exact this
    cases e with
    | none =>
      rw [assignLoop_cons_ok rest hstep]
      rw [ih r' c', hkeys]
    | some e =>
      rw [assignLoop_cons_err rest hstep]
      exact hkeys

theorem assignStep_assigned {r r' : List Student} {c c' : List (String × Nat)}
    {i : Nat} (hstep : assignStep r c i = (r', c', none)) (hi : i < r.length) :
    ∀ s', r'[i]? = some s' → s'.group.isSome := by
  intro s' hs'
  rcases assignStep_spec r c i with ⟨hcase, hout⟩ | ⟨s, hri, hg, ha, hout⟩ |
    ⟨s, g, hri, hg, ha, ht, hout⟩ | ⟨s, g, hri, hg, ha, ht, hcase⟩
  · rw [hstep] at hout
    injection hout with h1 h23
    subst h1
    rcases hcase with hnone | ⟨s, hsome, hgrp⟩
    · rw [List.getElem?_eq_none_iff] at hnone
      omega
    · rw [hsome] at hs'
      cases hs'
      exact hgrp
  · rw [hstep] at hout
    injection hout with h1 h23
    injection h23 with h2 h3
    cases h3
  · rw [hstep] at hout
    injection hout with h1 h23
    injection h23 with h2 h3
    cases h3
  · rcases hcase with ⟨-, hout⟩ | ⟨cfn, -, -, hout⟩ | ⟨cfn, j, -, -, -, hout⟩ |
      ⟨cfn, j, comp, -, -, -, -, hout⟩ | ⟨cfn, j, comp, -, -, hj, hcg, hout⟩
    · rw [hstep] at hout
      injection hout with h1 h23
      subst h1
      rw [getElem?_setGroup_self g hri] at hs'
      cases hs'
      rfl
    · rw [hstep] at hout
      injection hout with h1 h23
      injection h23 with h2 h3
      cases h3
    · rw [hstep] at hout
      injection hout with h1 h23
      subst h1
      rw [getElem?_setGroup_self g hri] at hs'
      cases hs'
      rfl
    · rw [hstep] at hout
      injection hout with h1 h23
      subst h1
      rw [getElem?_setGroup_self g hri] at hs'
      cases hs'
      rfl
    · rw [hstep] at hout
      injection hout with h1 h23
      subst h1
      have hji : j ≠ i := by
        intro hji
        subst hji
        rw [getElem?_setGroup_self g hri] at hj
        cases hj
        cases hcg
      rw [getElem?_setGroup_ne g hji, getElem?_setGroup_self g hri] at hs'
      cases hs'
      rfl

theorem StuExt.isSome_of_isSome {s s' : Student} (h : StuExt s s')
    (hs : s.group.isSome) : s'.group.isSome := by
  obtain ⟨g, hg⟩ := Option.isSome_iff_exists.mp hs
  rw [h.2 g hg]
  rfl

theorem assignLoop_all_assigned (idxs : List Nat) (r : List Student)
    (c : List (String × Nat))
    (herr : (assignLoop idxs r c).2.2 = none) :
    ∀ i ∈ idxs, i < r.length →
      ∀ s', (assignLoop idxs r c).1[i]? = some s' → s'.group.isSome := by
  induction idxs generalizing r c with
  | nil => intro i hi; cases hi
  | cons i rest ih =>
    obtain ⟨⟨r', c', e⟩, hstep⟩ : ∃ out, assignStep r c i = out := ⟨_, rfl⟩
    cases e with
    | some e =>
      rw [assignLoop_cons_err rest hstep] at herr
      cases herr
    | none =>
      have hloop := assignLoop_cons_ok rest hstep
      rw [hloop] at herr ⊢
      have hlen : r'.length = r.length := by
        have := assignStep_length r c i
        rw [hstep] at this
        exact this
      intro k hk hklt s' hs'
      rcases List.mem_cons.mp hk with rfl | hkrest
      · have hmid := assignStep_assigned hstep hklt
        have hkr' : k < r'.length := by omega
        obtain ⟨t, ht⟩ : ∃ t, r'[k]? = some t := by
          cases hx : r'[k]? with
          | none =>
            exfalso
            rw [List.getElem?_eq_none_iff] at hx
            omega
          | some t => exact ⟨t, rfl⟩
        obtain ⟨t', ht', hext⟩ := (assignLoop_ext rest r' c').2 k t ht
        rw [hs'] at ht'
        cases ht'
        exact hext.isSome_of_isSome (hmid t ht)
      · exact ih r' c' herr k hkrest (by omega) s' hs'

theorem assignStep_noop {r : List Student} {i : Nat}
    (c : List (String × Nat))
    (h : ∀ s, r[i]? = some s → s.group.isSome) :
    assignStep r c i = (r, c, none) := by
  cases hri : r[i]? with
  | none => simp [assignStep, hri]
  | some s => simp [assignStep, hri, h s hri]

theorem assignLoop_noop (idxs : List Nat) {r : List Student}
    (c : List (String × Nat)) (h : ∀ s ∈ r, s.group.isSome) :
    assignLoop idxs r c = (r, c, none) := by
  induction idxs with
  | nil => rfl
  | cons i rest ih =>
    have hstep : assignStep r c i = (r, c, none) :=
      assignStep_noop c fun s hs => h s (List.getElem?_mem hs)
    rw [assignLoop_cons_ok rest hstep]
    exact ih

theorem initCounts_keys : initCounts.map Prod.fst = GROUPS := by
  unfold initCounts
  rw [List.map_map]
  have h : (Prod.fst ∘ fun g : String => (g, (0 : Nat))) = id := by
    funext g
    rfl
  rw [h, List.map_id]

theorem lookupCount_initCounts (g : String) : lookupCount initCounts g = 0 := by
  unfold lookupCount
  cases hf : initCounts.find? (fun kv => kv.1 = g) with
  | none => rfl
  | some kv =>
    have hmem := List.mem_of_find?_eq_some hf
    unfold initCounts at hmem
    obtain ⟨x, -, hx⟩ := List.mem_map.mp hmem
    rw [← hx]

theorem spread_init (B : Nat) : Spread B initCounts := by
  intro m hm g g' hg hg' hgs hg's
  rw [lookupCount_initCounts, lookupCount_initCounts]
  exact Nat.zero_le _

theorem spread_of_pointwise {B δ : Nat} {c c₂ : List (String × Nat)}
    {m₀ g₀ : String}
    (hkeys : c.map Prod.fst = GROUPS)
    (hsp : Spread B c)
    (hδ : δ ≤ B)
    (ha : argmin (dict_subset c m₀) = some g₀)
    (htake : py_take2 g₀ = m₀)
    (hkeys₂ : c₂.map Prod.fst = c.map Prod.fst)
    (hc₂ : ∀ x, lookupCount c₂ x = lookupCount c x + if x = g₀ then δ else 0) :
    Spread B c₂ := by
  have hnd : (c.map Prod.fst).Nodup := hkeys ▸ GROUPS_nodup
  obtain ⟨w, hw_mem, hw_min⟩ := argmin_mem_val ha
  obtain ⟨hw_c, hw_sw⟩ := mem_dict_subset.mp hw_mem
  have hw_lookup : lookupCount c g₀ = w := lookupCount_eq_of_mem hnd hw_c
  have hg₀_keys : g₀ ∈ c.map Prod.fst := List.mem_map.mpr ⟨(g₀, w), hw_c, rfl⟩
  have hg₀_groups : g₀ ∈ GROUPS := hkeys ▸ hg₀_keys
  have hmin : ∀ g', g' ∈ c.map Prod.fst → py_startswith g' m₀ = true →
      lookupCount c g₀ ≤ lookupCount c g' := by
    intro g' hg'k hg's
    obtain ⟨kv, hkv_c, hkv_fst⟩ := List.mem_map.mp hg'k
    have hkv_sub : kv ∈ dict_subset c m₀ :=
      mem_dict_subset.mpr ⟨hkv_c, by rw [hkv_fst]; exact hg's⟩
    have : lookupCount c g' = kv.2 := by
      have : (g', kv.2) ∈ c := by
        have : kv = (g', kv.2) := by
          rw [← hkv_fst]
        exact this ▸ hkv_c
      exact lookupCount_eq_of_mem hnd this
    rw [hw_lookup, this]
    exact hw_min kv hkv_sub
  intro m hm g g' hgk hg'k hgs hg's
  rw [hkeys₂] at hgk hg'k
  rw [hc₂ g, hc₂ g']
  by_cases hgg : g = g₀
  · by_cases hg'g : g' = g₀
    · rw [if_pos hgg, if_pos hg'g]
      have := hsp m hm g g' hgk hg'k hgs hg's
      omega
    · have hm₀ : m = m₀ := by
        rw [← htake]
        exact (groups_startswith_take2 g₀ hg₀_groups m hm (hgg ▸ hgs)).symm
      have h1 := hmin g' hg'k (hm₀ ▸ hg's)
      rw [if_pos hgg, if_neg hg'g, hgg]
      omega
  · by_cases hg'g : g' = g₀
    · have := hsp m hm g g' hgk hg'k hgs hg's
      rw [if_neg hgg, if_pos hg'g]
      omega
    · have := hsp m hm g g' hgk hg'k hgs hg's
      rw [if_neg hgg, if_neg hg'g]
      omega

theorem lookupCount_incr_pointwise {c : List (String × Nat)} {g : String}
    (hg : g ∈ c.map Prod.fst) :
    ∀ x, lookupCount (incr c g) x = lookupCount c x + if x = g then 1 else 0 := by
  intro x
  by_cases hx : x = g
  · subst hx
    rw [lookupCount_incr_self c hg, if_pos rfl]
  · rw [lookupCount_incr_ne c hx, if_neg hx]
    rfl

theorem lookupCount_incr2_pointwise {c : List (String × Nat)} {g : String}
    (hg : g ∈ c.map Prod.fst) :
    ∀ x, lookupCount (incr (incr c g) g) x =
      lookupCount c x + if x = g then 2 else 0 := by
  intro x
  have hg' : g ∈ (incr c g).map Prod.fst := by
    rw [map_fst_incr]
    exact hg
  by_cases hx : x = g
  · subst hx
    rw [lookupCount_incr_self _ hg', lookupCount_incr_self c hg, if_pos rfl]
  · rw [lookupCount_incr_ne _ hx, lookupCount_incr_ne c hx, if_neg hx]
    rfl

theorem argmin_key_mem {c : List (String × Nat)} {m g : String}
    (ha : argmin (dict_subset c m) = some g) : g ∈ c.map Prod.fst := by
  obtain ⟨w, hw_mem, -⟩ := argmin_mem_val ha
  exact List.mem_map.mpr ⟨(g, w), (mem_dict_subset.mp hw_mem).1, rfl⟩

theorem assignStep_spread {B : Nat} {r : List Student}
    {c : List (String × Nat)} {i : Nat}
    (hkeys : c.map Prod.fst = GROUPS) (hsp : Spread B c) (hB : 1 ≤ B)
    (hH : 2 ≤ B ∨ ∀ s, r[i]? = some s → companion_full_name s = none) :
    Spread B (assignStep r c i).2.1 := by
  rcases assignStep_spec r c i with ⟨-, hout⟩ | ⟨s, hri, hg, ha, hout⟩ |
    ⟨s, g, hri, hg, ha, ht, hout⟩ | ⟨s, g, hri, hg, ha, ht, hcase⟩
  · rw [hout]
    exact hsp
  · rw [hout]
    exact hsp
  · rw [hout]
    exact hsp
  · have hgk : g ∈ c.map Prod.fst := argmin_key_mem ha
    rcases hcase with ⟨-, hout⟩ | ⟨cfn, -, -, hout⟩ | ⟨cfn, j, -, -, -, hout⟩ |
      ⟨cfn, j, comp, -, -, -, -, hout⟩ | ⟨cfn, j, comp, hc, -, hj, hcg, hout⟩
    · rw [hout]
      exact spread_of_pointwise hkeys hsp hB ha ht (map_fst_incr c g)
        (lookupCount_incr_pointwise hgk)
    · rw [hout]
      exact spread_of_pointwise hkeys hsp hB ha ht (map_fst_incr c g)
        (lookupCount_incr_pointwise hgk)
    · rw [hout]
      exact spread_of_pointwise hkeys hsp hB ha ht (map_fst_incr c g)
        (lookupCount_incr_pointwise hgk)
    · rw [hout]
      exact spread_of_pointwise hkeys hsp hB ha ht (map_fst_incr c g)
        (lookupCount_incr_pointwise hgk)
    · rcases hH with h2B | hnone
      · rw [hout]
        have hkeys2 : (incr (incr c g) g).map Prod.fst = c.map Prod.fst := by
          rw [map_fst_incr, map_fst_incr]
        exact spread_of_pointwise hkeys hsp h2B ha ht hkeys2
          (lookupCount_incr2_pointwise hgk)
      · exact absurd hc (by rw [hnone s hri]; simp)

theorem ros_ext_no_companion {r r' : List Student}
    (hext : RosExt r r')
    (h : ∀ s ∈ r, companion_full_name s = none) :
    ∀ s' ∈ r', companion_full_name s' = none := by
  intro s' hs'
  obtain ⟨i, hi⟩ := List.mem_iff_getElem?.mp hs'
  have hilt' : i < r'.length := by
    by_contra hge
    rw [List.getElem?_eq_none (by omega : r'.length ≤ i)] at hi
    cases hi
  have hilt : i < r.length := by
    have := hext.1
    omega
  obtain ⟨s₀, hri⟩ : ∃ t, r[i]? = some t := by
    cases hx : r[i]? with
    | none =>
      exfalso
      rw [List.getElem?_eq_none_iff] at hx
      omega
    | some t => exact ⟨t, rfl⟩
  obtain ⟨s'', hs'', hext'⟩ := hext.2 i _ hri
  rw [hi] at hs''
  cases hs''
  rw [hext'.companion_full_name_eq]
  exact h _ (List.getElem?_mem hri)

theorem assignLoop_spread {B : Nat} (idxs : List Nat) {r : List Student}
    {c : List (String × Nat)}
    (hkeys : c.map Prod.fst = GROUPS) (hsp : Spread B c) (hB : 1 ≤ B)
    (hH : 2 ≤ B ∨ ∀ s ∈ r, companion_full_name s = none) :
    Spread B ((assignLoop idxs r c).2.1) := by
  induction idxs generalizing r c with
  | nil => exact hsp
  | cons i rest ih =>
    obtain ⟨⟨r', c', e⟩, hstep⟩ : ∃ out, assignStep r c i = out := ⟨_, rfl⟩
    have hH' : 2 ≤ B ∨ ∀ s, r[i]? = some s → companion_full_name s = none := by
      rcases hH with h | h
      · exact Or.inl h
      · exact Or.inr fun s hs => h s (List.getElem?_mem hs)
    have hstep_sp : Spread B c' := by
      have := assignStep_spread hkeys hsp hB hH'
      rw [hstep] at this
      exact this
    have hkeys' : c'.map Prod.fst = GROUPS := by
      have hk : c'.map Prod.fst = c.map Prod.fst := by
        have := assignStep_keys r c i
        rw [hstep] at this
        exact this
      rw [hk]
      exact hkeys
    cases e with
    | none =>
      rw [assignLoop_cons_ok rest hstep]
      refine ih hkeys' hstep_sp ?_
      refine hH.imp id fun h => ?_
      have hext : RosExt r r' := by
        have := assignStep_ext r c i
        rw [hstep] at this
        exact this
      exact ros_ext_no_companion hext h
    | some e =>
      rw [assignLoop_cons_err rest hstep]
      exact hstep_sp

/-- Transport of an immutable-field property along a run of the loop. -/
theorem ros_ext_forall {P : Student → Prop} {r r' : List Student}
    (hext : RosExt r r') (hP : ∀ s s', StuExt s s' → P s → P s')
    (h : ∀ s ∈ r, P s) : ∀ s' ∈ r', P s' := by
  intro s' hs'
  obtain ⟨i, hi⟩ := List.mem_iff_getElem?.mp hs'
  have hilt' : i < r'.length := by
    by_contra hge
    rw [List.getElem?_eq_none (by omega : r'.length ≤ i)] at hi
    cases hi
  have hilt : i < r.length := by
    have := hext.1
    omega
  obtain ⟨s₀, hri⟩ : ∃ t, r[i]? = some t := by
    cases hx : r[i]? with
    | none =>
      exfalso
      rw [List.getElem?_eq_none_iff] at hx
      omega
    | some t => exact ⟨t, rfl⟩
  obtain ⟨s'', hs'', hext'⟩ := hext.2 i _ hri
  rw [hi] at hs''
  cases hs''
  exact hP _ _ hext' (h _ (List.getElem?_mem hri))

theorem ros_ext_getElem_fields {r r' : List Student} (hext : RosExt r r')
    {i : Nat} {s' : Student} (h : r'[i]? = some s') :
    ∃ s, r[i]? = some s ∧ StuExt s s' := by
  have hilt' : i < r'.length := by
    by_contra hge
    rw [List.getElem?_eq_none (by omega : r'.length ≤ i)] at h
    cases h
  have hilt : i < r.length := by
    have := hext.1
    omega
  obtain ⟨s₀, hri⟩ : ∃ t, r[i]? = some t := by
    cases hx : r[i]? with
    | none =>
      exfalso
      rw [List.getElem?_eq_none_iff] at hx
      omega
    | some t => exact ⟨t, rfl⟩
  obtain ⟨s'', hs'', hext'⟩ := hext.2 i _ hri
  rw [h] at hs''
  cases hs''
  exact ⟨_, hri, hext'⟩

theorem dict_subset_ne_nil {c : List (String × Nat)} {m : String}
    (hkeys : c.map Prod.fst = GROUPS) (hm : m ∈ MACRO_GROUPS) :
    dict_subset c m ≠ [] := by
  obtain ⟨g, hg_groups, hg_sw⟩ := macro_has_group m hm
  have hg_keys : g ∈ c.map Prod.fst := hkeys ▸ hg_groups
  obtain ⟨kv, hkv_c, hkv_fst⟩ := List.mem_map.mp hg_keys
  have : kv ∈ dict_subset c m :=
    mem_dict_subset.mpr ⟨hkv_c, by rw [hkv_fst]; exact hg_sw⟩
  exact List.ne_nil_of_mem this

theorem assignStep_no_bad_err {r : List Student} {c : List (String × Nat)}
    {i : Nat} (hkeys : c.map Prod.fst = GROUPS)
    (hmac : ∀ s, r[i]? = some s → s.macro_group ∈ MACRO_GROUPS) :
    (assignStep r c i).2.2 ≠ some .emptyMin ∧
      (assignStep r c i).2.2 ≠ some .assertFail := by
  rcases assignStep_spec r c i with ⟨-, hout⟩ | ⟨s, hri, hg, ha, hout⟩ |
    ⟨s, g, hri, hg, ha, ht, hout⟩ | ⟨s, g, hri, hg, ha, ht, hcase⟩
  · rw [hout]
    simp
  · exfalso
    rw [argmin_eq_none] at ha
    exact dict_subset_ne_nil hkeys (hmac s hri) ha
  · exfalso
    apply ht
    obtain ⟨w, hw_mem, -⟩ := argmin_mem_val ha
    obtain ⟨hw_c, hw_sw⟩ := mem_dict_subset.mp hw_mem
    have hg_groups : g ∈ GROUPS :=
      hkeys ▸ List.mem_map.mpr ⟨(g, w), hw_c, rfl⟩
    exact groups_startswith_take2 g hg_groups s.macro_group (hmac s hri) hw_sw
  · rcases hcase with ⟨-, hout⟩ | ⟨cfn, -, -, hout⟩ | ⟨cfn, j, -, -, -, hout⟩ |
      ⟨cfn, j, comp, -, -, -, -, hout⟩ | ⟨cfn, j, comp, -, -, -, -, hout⟩ <;>
    · rw [hout]
      simp

theorem assignLoop_err_kinds (idxs : List Nat) {r : List Student}
    {c : List (String × Nat)} (hkeys : c.map Prod.fst = GROUPS)
    (hmac : ∀ s ∈ r, s.macro_group ∈ MACRO_GROUPS) :
    (assignLoop idxs r c).2.2 ≠ some .emptyMin ∧
      (assignLoop idxs r c).2.2 ≠ some .assertFail := by
  induction idxs generalizing r c with
  | nil => simp [assignLoop]
  | cons i rest ih =>
    obtain ⟨⟨r', c', e⟩, hstep⟩ : ∃ out, assignStep r c i = out := ⟨_, rfl⟩
    have hbad := assignStep_no_bad_err (i := i) hkeys
      (fun s hs => hmac s (List.getElem?_mem hs))
    rw [hstep] at hbad
    cases e with
    | none =>
      rw [assignLoop_cons_ok rest hstep]
      have hkeys' : c'.map Prod.fst = GROUPS := by
        have hk : c'.map Prod.fst = c.map Prod.fst := by
          have := assignStep_keys r c i
          rw [hstep] at this
          exact this
        rw [hk]
        exact hkeys
      have hext : RosExt r r' := by
        have := assignStep_ext r c i
        rw [hstep] at this
        exact this
      have hmac' : ∀ s ∈ r', s.macro_group ∈ MACRO_GROUPS :=
        ros_ext_forall hext
          (fun s s' he hp => he.macro_group_eq ▸ hp) hmac
      exact ih hkeys' hmac'
    | some e =>
      rw [assignLoop_cons_err rest hstep]
      exact hbad

theorem mem_setGroup {r : List Student} {i : Nat} {g : String} {s' : Student}
    (h : s' ∈ setGroup r i g) :
    s' ∈ r ∨ ∃ s, r[i]? = some s ∧ s' = { s with group := some g } := by
  unfold setGroup at h
  cases hri : r[i]? with
  | none =>
    rw [hri] at h
    exact Or.inl h
  | some s =>
    rw [hri] at h
    rcases List.mem_or_eq_of_mem_set h with h' | h'
    · exact Or.inl h'
    · exact Or.inr ⟨s, rfl, h'⟩

theorem assignStep_prefixOk {r : List Student} {c : List (String × Nat)}
    {i : Nat} (hok : PrefixOk r) (hcsm : SameMacroPairs r) :
    PrefixOk (assignStep r c i).1 := by
  rcases assignStep_spec r c i with ⟨-, hout⟩ | ⟨s, hri, hg, ha, hout⟩ |
    ⟨s, g, hri, hg, ha, ht, hout⟩ | ⟨s, g, hri, hg, ha, ht, hcase⟩
  · rw [hout]
    exact hok
  · rw [hout]
    exact hok
  · rw [hout]
    exact hok
  · have hok1 : PrefixOk (setGroup r i g) := by
      intro s' hs' g' hg'
      rcases mem_setGroup hs' with h' | ⟨s₀, hs₀, rfl⟩
      · exact hok s' h' g' hg'
      · rw [hri] at hs₀
        cases hs₀
        have : g = g' := by
          simpa using hg'
        subst this
        exact ht
    rcases hcase with ⟨-, hout⟩ | ⟨cfn, -, -, hout⟩ | ⟨cfn, j, -, -, -, hout⟩ |
      ⟨cfn, j, comp, -, -, -, -, hout⟩ | ⟨cfn, j, comp, hc, hf, hj, hcg, hout⟩
    · rw [hout]
      exact hok1
    · rw [hout]
      exact hok1
    · rw [hout]
      exact hok1
    · rw [hout]
      exact hok1
    · rw [hout]
      intro s' hs' g' hg'
      rcases mem_setGroup hs' with h' | ⟨c₀, hc₀, rfl⟩
      · exact hok1 s' h' g' hg'
      · rw [hj] at hc₀
        cases hc₀
        have hgg' : g = g' := by
          simpa using hg'
        subst hgg'
        have hji : j ≠ i := by
          intro hji
          subst hji
          rw [getElem?_setGroup_self g hri] at hj
          cases hj
          cases hcg
        have hcomp_r : r[j]? = some comp := by
          rw [← getElem?_setGroup_ne g (Ne.symm hji)]
          exact hj
        obtain ⟨t, ht', htn⟩ := findIdxByName_some hf
        rw [hj] at ht'
        cases ht'
        have hmac : comp.macro_group = s.macro_group := by
          apply hcsm s (List.getElem?_mem hri) comp (List.getElem?_mem hcomp_r)
          rw [hc, htn]
        rw [ht, hmac]

theorem ros_ext_same_macro_pairs {r r' : List Student}
    (hext : RosExt r r') (h : SameMacroPairs r) :
    SameMacroPairs r' := by
  intro s' hs' t' ht' hcomp
  obtain ⟨i, hi⟩ := List.mem_iff_getElem?.mp hs'
  obtain ⟨k, hk⟩ := List.mem_iff_getElem?.mp ht'
  obtain ⟨s, hs, hes⟩ := ros_ext_getElem_fields hext hi
  obtain ⟨t, htt, het⟩ := ros_ext_getElem_fields hext hk
  have : companion_full_name s = some (full_name t) := by
    rw [← hes.companion_full_name_eq, ← het.full_name_eq]
    exact hcomp
  have hmac := h s (List.getElem?_mem hs) t (List.getElem?_mem htt) this
  rw [← het.macro_group_eq, ← hes.macro_group_eq] at hmac
  exact hmac

theorem assignLoop_prefixOk (idxs : List Nat) {r : List Student}
    {c : List (String × Nat)} (hok : PrefixOk r)
    (hcsm : SameMacroPairs r) : PrefixOk (assignLoop idxs r c).1 := by
  induction idxs generalizing r c with
  | nil => exact hok
  | cons i rest ih =>
    obtain ⟨⟨r', c', e⟩, hstep⟩ : ∃ out, assignStep r c i = out := ⟨_, rfl⟩
    have hok' : PrefixOk r' := by
      have := assignStep_prefixOk (c := c) (i := i) hok hcsm
      rw [hstep] at this
      exact this
    cases e with
    | none =>
      rw [assignLoop_cons_ok rest hstep]
      have hext : RosExt r r' := by
        have := assignStep_ext r c i
        rw [hstep] at this
        exact this
      exact ih hok' (ros_ext_same_macro_pairs hext hcsm)
    | some e =>
      rw [assignLoop_cons_err rest hstep]
      exact hok'

theorem setGroup_cons_succ (a : Student) (t : List Student) (n : Nat)
    (g : String) : setGroup (a :: t) (n + 1) g = a :: setGroup t n g := by
  unfold setGroup
  cases h : t[n]? with
  | none => simp [h]
  | some s => simp [h]

theorem occ_setGroup {r : List Student} {i : Nat} {s : Student} (g : String)
    (hri : r[i]? = some s) (hg : s.group = none) (x : String) :
    occ (setGroup r i g) x = occ r x + if g = x then 1 else 0 := by
  induction r generalizing i with
  | nil => cases hri
  | cons a t ih =>
    cases i with
    | zero =>
      have hsa : a = s := by
        simpa using hri
      subst hsa
      have hset : setGroup (a :: t) 0 g = { a with group := some g } :: t := by
        unfold setGroup
        simp
      rw [hset]
      unfold occ
      rw [List.countP_cons, List.countP_cons]
      by_cases hgx : g = x <;> simp [hg, hgx]
    | succ n =>
      have hri' : t[n]? = some s := by
        simpa using hri
      rw [setGroup_cons_succ]
      unfold occ
      rw [List.countP_cons, List.countP_cons]
      have := ih hri'
      unfold occ at this
      omega

theorem occ_zero_of_all_none {r : List Student}
    (h : ∀ s ∈ r, s.group = none) (g : String) : occ r g = 0 := by
  unfold occ
  rw [List.countP_eq_zero]
  intro s hs
  rw [h s hs]
  simp

theorem assignStep_countsMatch {r : List Student} {c : List (String × Nat)}
    {i : Nat} (hcm : ∀ g, lookupCount c g = occ r g) :
    ∀ g, lookupCount (assignStep r c i).2.1 g = occ (assignStep r c i).1 g := by
  rcases assignStep_spec r c i with ⟨-, hout⟩ | ⟨s, hri, hg, ha, hout⟩ |
    ⟨s, g, hri, hg, ha, ht, hout⟩ | ⟨s, g, hri, hg, ha, ht, hcase⟩
  · rw [hout]
    exact hcm
  · rw [hout]
    exact hcm
  · rw [hout]
    exact hcm
  · have hgk : g ∈ c.map Prod.fst := argmin_key_mem ha
    have hone : ∀ x, lookupCount (incr c g) x = occ (setGroup r i g) x := by
      intro x
      rw [lookupCount_incr_pointwise hgk x, occ_setGroup g hri hg x, hcm x]
      by_cases hgx : x = g
      · subst hgx
        simp
      · rw [if_neg hgx, if_neg fun h => hgx h.symm]
    rcases hcase with ⟨-, hout⟩ | ⟨cfn, -, -, hout⟩ | ⟨cfn, j, -, -, -, hout⟩ |
      ⟨cfn, j, comp, -, -, -, -, hout⟩ | ⟨cfn, j, comp, hc, hf, hj, hcg, hout⟩
    · rw [hout]
      exact hone
    · rw [hout]
      exact hone
    · rw [hout]
      exact hone
    · rw [hout]
      exact hone
    · rw [hout]
      intro x
      have hgk1 : g ∈ (incr c g).map Prod.fst := by
        rw [map_fst_incr]
        exact hgk
      rw [lookupCount_incr_pointwise hgk1 x, occ_setGroup g hj hcg x, hone x]
      by_cases hgx : x = g
      · subst hgx
        simp
      · rw [if_neg hgx, if_neg fun h => hgx h.symm]

theorem assignLoop_countsMatch (idxs : List Nat) {r : List Student}
    {c : List (String × Nat)} (hcm : ∀ g, lookupCount c g = occ r g) :
    ∀ g, lookupCount ((assignLoop idxs r c).2.1) g =
      occ ((assignLoop idxs r c).1) g := by
  induction idxs generalizing r c with
  | nil => exact hcm
  | cons i rest ih =>
    obtain ⟨⟨r', c', e⟩, hstep⟩ : ∃ out, assignStep r c i = out := ⟨_, rfl⟩
    have hcm' : ∀ g, lookupCount c' g = occ r' g := by
      have := assignStep_countsMatch (i := i) hcm
      rw [hstep] at this
      exact this
    cases e with
    | none =>
      rw [assignLoop_cons_ok rest hstep]
      exact ih hcm'
    | some e =>
      rw [assignLoop_cons_err rest hstep]
      exact hcm'

theorem assignLoop_append_ok {xs : List Nat} {r r' : List Student}
    {c c' : List (String × Nat)} (ys : List Nat)
    (h : assignLoop xs r c = (r', c', none)) :
    assignLoop (xs ++ ys) r c = assignLoop ys r' c' := by
  induction xs generalizing r c with
  | nil =>
    injection h with h1 h23
    injection h23 with h2 h3
    subst h1
    subst h2
    rfl
  | cons i xs ih =>
    obtain ⟨⟨r₀, c₀, e⟩, hstep⟩ : ∃ out, assignStep r c i = out := ⟨_, rfl⟩
    cases e with
    | none =>
      rw [assignLoop_cons_ok xs hstep] at h
      rw [List.cons_append, assignLoop_cons_ok (xs ++ ys) hstep]
      exact ih h
    | some e =>
      rw [assignLoop_cons_err xs hstep] at h
      injection h with h1 h23
      injection h23 with h2 h3
      cases h3

theorem assignLoop_append_err {xs : List Nat} {r r' : List Student}
    {c c' : List (String × Nat)} {e : AssignErr} (ys : List Nat)
    (h : assignLoop xs r c = (r', c', some e)) :
    assignLoop (xs ++ ys) r c = (r', c', some e) := by
  induction xs generalizing r c with
  | nil =>
    injection h with h1 h23
    injection h23 with h2 h3
    cases h3
  | cons i xs ih =>
    obtain ⟨⟨r₀, c₀, e₀⟩, hstep⟩ : ∃ out, assignStep r c i = out := ⟨_, rfl⟩
    cases e₀ with
    | none =>
      rw [assignLoop_cons_ok xs hstep] at h
      rw [List.cons_append, assignLoop_cons_ok (xs ++ ys) hstep]
      exact ih h
    | some e₀ =>
      rw [assignLoop_cons_err xs hstep] at h
      rw [List.cons_append, assignLoop_cons_err (xs ++ ys) hstep]
      exact h

theorem range_split (p n : Nat) (h : p < n) :
    List.range n = List.range p ++ p :: List.range' (p + 1) (n - p - 1) := by
  have h2 : n - p - 1 + 1 = n - p := by omega
  rw [List.range_eq_range', List.range_eq_range']
  have h3 := List.range'_append_1 0 p (n - p)
  rw [Nat.zero_add] at h3
  have h4 : n - p + p = n := by omega
  rw [h4] at h3
  rw [← h3]
  congr 1
  rw [← h2, List.range'_succ]
  have h5 : n - p - 1 + 1 - 1 = n - p - 1 := by omega
  rw [h5]

theorem ros_ext_names {r r' : List Student} (hext : RosExt r r') :
    r'.map full_name = r.map full_name := by
  apply List.ext_getElem?
  intro i
  rw [List.getElem?_map, List.getElem?_map]
  cases hri : r[i]? with
  | none =>
    have hlen := hext.1
    have hnone : r'[i]? = none := by
      rw [List.getElem?_eq_none_iff] at hri ⊢
      omega
    rw [hnone]
  | some s =>
    obtain ⟨s', hs', hes⟩ := hext.2 i s hri
    rw [hs']
    simp [hes.full_name_eq]

theorem name_index_unique {r : List Student} {j k : Nat} {sj sk : Student}
    (hnd : (r.map full_name).Nodup) (hj : r[j]? = some sj)
    (hk : r[k]? = some sk) (hname : full_name sj = full_name sk) : j = k := by
  have hjlt : j < (r.map full_name).length := by
    rw [List.length_map]
    by_contra hge
    rw [List.getElem?_eq_none (by omega)] at hj
    cases hj
  apply List.getElem?_inj hjlt hnd
  rw [List.getElem?_map, List.getElem?_map, hj, hk]
  simp [hname]

theorem assignStep_untouched {r : List Student} {c : List (String × Nat)}
    {i p : Nat} {sp : Student} (hip : i ≠ p) (hp : r[p]? = some sp)
    (href : ∀ s, r[i]? = some s →
      companion_full_name s ≠ some (full_name sp)) :
    (assignStep r c i).1[p]? = some sp := by
  rcases assignStep_spec r c i with ⟨-, hout⟩ | ⟨s, hri, hg, ha, hout⟩ |
    ⟨s, g, hri, hg, ha, ht, hout⟩ | ⟨s, g, hri, hg, ha, ht, hcase⟩
  · rw [hout]
    exact hp
  · rw [hout]
    exact hp
  · rw [hout]
    exact hp
  · have hp1 : (setGroup r i g)[p]? = some sp := by
      rw [getElem?_setGroup_ne g hip]
      exact hp
    rcases hcase with ⟨-, hout⟩ | ⟨cfn, -, -, hout⟩ | ⟨cfn, j, -, -, -, hout⟩ |
      ⟨cfn, j, comp, -, -, -, -, hout⟩ | ⟨cfn, j, comp, hc, hf, hj, hcg, hout⟩
    · rw [hout]
      exact hp1
    · rw [hout]
      exact hp1
    · rw [hout]
      exact hp1
    · rw [hout]
      exact hp1
    · rw [hout]
      have hjp : j ≠ p := by
        intro hjp
        subst hjp
        obtain ⟨t, ht', htn⟩ := findIdxByName_some hf
        rw [hp1] at ht'
        cases ht'
        exact href s hri (by rw [hc, htn])
      rw [getElem?_setGroup_ne g hjp]
      exact hp1

theorem assignLoop_untouched (idxs : List Nat) {r : List Student}
    {c : List (String × Nat)} {p : Nat} {sp : Student}
    (hnp : p ∉ idxs) (hp : r[p]? = some sp)
    (href : ∀ i ∈ idxs, ∀ s, r[i]? = some s →
      companion_full_name s ≠ some (full_name sp)) :
    (assignLoop idxs r c).1[p]? = some sp := by
  induction idxs generalizing r c with
  | nil => exact hp
  | cons i rest ih =>
    obtain ⟨⟨r', c', e⟩, hstep⟩ : ∃ out, assignStep r c i = out := ⟨_, rfl⟩
    have hip : i ≠ p := fun h => hnp (h ▸ List.mem_cons_self _ _)
    have hp' : r'[p]? = some sp := by
      have := assignStep_untouched (c := c) hip hp
        (href i (List.mem_cons_self _ _))
      rw [hstep] at this
      exact this
    cases e with
    | none =>
      rw [assignLoop_cons_ok rest hstep]
      have hext : RosExt r r' := by
        have := assignStep_ext r c i
        rw [hstep] at this
        exact this
      refine ih (fun h => hnp (List.mem_cons_of_mem _ h)) hp' ?_
      intro k hk s' hs'
      obtain ⟨s, hs, hes⟩ := ros_ext_getElem_fields hext hs'
      rw [hes.companion_full_name_eq]
      exact href k (List.mem_cons_of_mem _ hk) s hs
    | some e =>
      rw [assignLoop_cons_err rest hstep]
      exact hp'

/-- If the first-processed member of a companion pair is still unassigned
when the loop reaches it (nobody else references either member), both
members end with the same turn-group. -/
theorem mutual_pair_aux {r : List Student} {p q : Nat} {P Q : Student}
    (hpq : p < q)
    (hP : r[p]? = some P) (hQ : r[q]? = some Q)
    (hall : ∀ s ∈ r, s.group = none)
    (hnd : (r.map full_name).Nodup)
    (hcP : companion_full_name P = some (full_name Q))
    (href : ∀ k s, r[k]? = some s → k ≠ p → k ≠ q →
      companion_full_name s ≠ some (full_name P) ∧
      companion_full_name s ≠ some (full_name Q))
    (herr : (assign_groups r).2.2 = none) :
    ∃ g P' Q', (assign_groups r).1[p]? = some P' ∧
      (assign_groups r).1[q]? = some Q' ∧
      P'.group = some g ∧ Q'.group = some g := by
  have hag : assign_groups r = assignLoop (List.range r.length) r initCounts :=
    rfl
  have hpn : p < r.length := by
    by_contra hge
    rw [List.getElem?_eq_none (by omega)] at hP
    cases hP
  have hqn : q < r.length := by
    by_contra hge
    rw [List.getElem?_eq_none (by omega)] at hQ
    cases hQ
  have hsplit := range_split p r.length hpn
  obtain ⟨⟨r₁, c₁, e₁⟩, h1⟩ :
      ∃ out, assignLoop (List.range p) r initCounts = out := ⟨_, rfl⟩
  cases e₁ with
  | some e₁ =>
    exfalso
    have hw := assignLoop_append_err
      (p :: List.range' (p + 1) (r.length - p - 1)) h1
    rw [← hsplit] at hw
    rw [hag, hw] at herr
    cases herr
  | none =>
  have hdec1 : assignLoop (List.range r.length) r initCounts =
      assignLoop (p :: List.range' (p + 1) (r.length - p - 1)) r₁ c₁ := by
    rw [hsplit]
    exact assignLoop_append_ok _ h1
  have hPmem : P ∈ r := List.getElem?_mem hP
  have hQmem : Q ∈ r := List.getElem?_mem hQ
  have hP₁ : r₁[p]? = some P := by
    have := assignLoop_untouched (List.range p) (c := initCounts) (by simp)
      hP ?hrefs
    · rw [h1] at this
      exact this
    case hrefs =>
      intro i hi s hs
      have hilt := List.mem_range.mp hi
      exact (href i s hs (by omega) (by omega)).1
  have hQ₁ : r₁[q]? = some Q := by
    have := assignLoop_untouched (List.range p) (c := initCounts) (by
      intro hmem
      have := List.mem_range.mp hmem
      omega) hQ ?hrefsq
    · rw [h1] at this
      exact this
    case hrefsq =>
      intro i hi s hs
      have hilt := List.mem_range.mp hi
      exact (href i s hs (by omega) (by omega)).2
  have hext₁ : RosExt r r₁ := by
    have := assignLoop_ext (List.range p) r initCounts
    rw [h1] at this
    exact this
  obtain ⟨⟨r₂, c₂, e₂⟩, hstep⟩ : ∃ out, assignStep r₁ c₁ p = out := ⟨_, rfl⟩
  cases e₂ with
  | some e₂ =>
    exfalso
    have hw := assignLoop_cons_err (List.range' (p + 1) (r.length - p - 1)) hstep
    rw [hag, hdec1, hw] at herr
    cases herr
  | none =>
  have hdec2 : assignLoop (List.range r.length) r initCounts =
      assignLoop (List.range' (p + 1) (r.length - p - 1)) r₂ c₂ := by
    rw [hdec1]
    exact assignLoop_cons_ok _ hstep
  -- analyse the step at `p`
  rcases assignStep_spec r₁ c₁ p with ⟨hcase, hout⟩ | ⟨s, hri, hg, ha, hout⟩ |
    ⟨s, g, hri, hg, ha, ht, hout⟩ | ⟨s, g, hri, hg, ha, ht, hcase⟩
  · exfalso
    rcases hcase with hnone | ⟨s, hsome, hgrp⟩
    · rw [hP₁] at hnone
      cases hnone
    · rw [hP₁] at hsome
      injection hsome with hsP
      rw [← hsP, hall P hPmem] at hgrp
      cases hgrp
  · rw [hstep] at hout
    injection hout with h1' h23
    injection h23 with h2' h3'
    cases h3'
  · rw [hstep] at hout
    injection hout with h1' h23
    injection h23 with h2' h3'
    cases h3'
  · rw [hP₁] at hri
    injection hri with hsP
    subst hsP
    have hcfn : companion_full_name P = some (full_name Q) := hcP
    have hr1'P : (setGroup r₁ p g)[p]? =
        some { P with group := some g } := getElem?_setGroup_self g hP₁
    have hr1'Q : (setGroup r₁ p g)[q]? = some Q := by
      rw [getElem?_setGroup_ne g (by omega : p ≠ q)]
      exact hQ₁
    have hext1' : RosExt r₁ (setGroup r₁ p g) :=
      setGroup_ext g hP₁ (hall P hPmem)
    have hnd' : ((setGroup r₁ p g).map full_name).Nodup := by
      rw [ros_ext_names hext1', ros_ext_names hext₁]
      exact hnd
    rcases hcase with ⟨hcnone, hout⟩ | ⟨cfn, hc, hf, hout⟩ |
      ⟨cfn, j, hc, hf, hj, hout⟩ | ⟨cfn, j, comp, hc, hf, hj, hcg, hout⟩ |
      ⟨cfn, j, comp, hc, hf, hj, hcg, hout⟩
    · exfalso
      rw [hcfn] at hcnone
      cases hcnone
    · exfalso
      rw [hstep] at hout
      injection hout with h1' h23
      injection h23 with h2' h3'
      cases h3'
    · exfalso
      obtain ⟨t, htj, -⟩ := findIdxByName_some hf
      rw [hj] at htj
      cases htj
    · exfalso
      rw [hcfn] at hc
      injection hc with hcq
      obtain ⟨t, htj, htn⟩ := findIdxByName_some hf
      rw [hj] at htj
      injection htj with htc
      subst htc
      have hjq : j = q := name_index_unique hnd' hj hr1'Q (by rw [htn, ← hcq])
      subst hjq
      rw [hr1'Q] at hj
      injection hj with hcompQ
      rw [← hcompQ, hall Q hQmem] at hcg
      cases hcg
    · rw [hcfn] at hc
      injection hc with hcq
      obtain ⟨t, htj, htn⟩ := findIdxByName_some hf
      rw [hj] at htj
      injection htj with htc
      subst htc
      have hjq : j = q := name_index_unique hnd' hj hr1'Q (by rw [htn, ← hcq])
      rw [hjq] at hj hout
      rw [hr1'Q] at hj
      injection hj with hcompQ
      subst hcompQ
      rw [hstep] at hout
      injection hout with h1' h23
      injection h23 with h2' h3'
      have hPfin : r₂[p]? = some { P with group := some g } := by
        rw [h1', getElem?_setGroup_ne g (by omega : q ≠ p)]
        exact hr1'P
      have hQfin : r₂[q]? = some { Q with group := some g } := by
        rw [h1']
        exact getElem?_setGroup_self g hr1'Q
      have hext₂ : RosExt r₂ (assignLoop
          (List.range' (p + 1) (r.length - p - 1)) r₂ c₂).1 :=
        assignLoop_ext _ r₂ c₂
      obtain ⟨P', hP', hesP⟩ := hext₂.2 p _ hPfin
      obtain ⟨Q', hQ', hesQ⟩ := hext₂.2 q _ hQfin
      refine ⟨g, P', Q', ?_, ?_, ?_, ?_⟩
      · rw [hag, hdec2]
        exact hP'
      · rw [hag, hdec2]
        exact hQ'
      · exact hesP.2 g rfl
      · exact hesQ.2 g rfl

/-- A student with a companion name absent from the roster makes the pass
raise `KeyError`, provided the student is not pre-empted (assigned as someone
else's companion) before their own iteration. -/
theorem missing_companion_err {r : List Student} {iX : Nat} {X : Student}
    {cfn : String}
    (hX : r[iX]? = some X)
    (hmac : ∀ s ∈ r, s.macro_group ∈ MACRO_GROUPS)
    (hall : ∀ s ∈ r, s.group = none)
    (hc : companion_full_name X = some cfn)
    (hmissing : ∀ s ∈ r, full_name s ≠ cfn)
    (href : ∀ k s, r[k]? = some s → k ≠ iX →
      companion_full_name s ≠ some (full_name X)) :
    (assign_groups r).2.2 = some .companionMissing := by
  have hag : assign_groups r = assignLoop (List.range r.length) r initCounts :=
    rfl
  have hXn : iX < r.length := by
    by_contra hge
    rw [List.getElem?_eq_none (by omega)] at hX
    cases hX
  have hkinds := assignLoop_err_kinds (List.range r.length)
    initCounts_keys hmac
  have hXmem : X ∈ r := List.getElem?_mem hX
  have hsplit := range_split iX r.length hXn
  obtain ⟨⟨r₁, c₁, e₁⟩, h1⟩ :
      ∃ out, assignLoop (List.range iX) r initCounts = out := ⟨_, rfl⟩
  cases e₁ with
  | some e₁ =>
    have hw := assignLoop_append_err
      (iX :: List.range' (iX + 1) (r.length - iX - 1)) h1
    rw [← hsplit] at hw
    have hwhole : (assign_groups r).2.2 = some e₁ := by
      rw [hag, hw]
    cases e₁ with
    | emptyMin =>
      exfalso
      rw [hag] at hwhole
      exact hkinds.1 hwhole
    | assertFail =>
      exfalso
      rw [hag] at hwhole
      exact hkinds.2 hwhole
    | companionMissing => exact hwhole
  | none =>
  have hdec1 : assignLoop (List.range r.length) r initCounts =
      assignLoop (iX :: List.range' (iX + 1) (r.length - iX - 1)) r₁ c₁ := by
    rw [hsplit]
    exact assignLoop_append_ok _ h1
  have hX₁ : r₁[iX]? = some X := by
    have := assignLoop_untouched (List.range iX) (c := initCounts) (by simp)
      hX ?hrefs
    · rw [h1] at this
      exact this
    case hrefs =>
      intro i hi s hs
      have hilt := List.mem_range.mp hi
      exact href i s hs (by omega)
  have hext₁ : RosExt r r₁ := by
    have := assignLoop_ext (List.range iX) r initCounts
    rw [h1] at this
    exact this
  rcases assignStep_spec r₁ c₁ iX with ⟨hcase, hout⟩ | ⟨s, hri, hg, ha, hout⟩ |
    ⟨s, g, hri, hg, ha, ht, hout⟩ | ⟨s, g, hri, hg, ha, ht, hcase⟩
  · exfalso
    rcases hcase with hnone | ⟨s, hsome, hgrp⟩
    · rw [hX₁] at hnone
      cases hnone
    · rw [hX₁] at hsome
      injection hsome with hsX
      rw [← hsX, hall X hXmem] at hgrp
      cases hgrp
  · exfalso
    rw [hX₁] at hri
    injection hri with hsX
    apply hkinds.1
    rw [hdec1, assignLoop_cons_err _ hout]
  · exfalso
    rw [hX₁] at hri
    injection hri with hsX
    apply hkinds.2
    rw [hdec1, assignLoop_cons_err _ hout]
  · rw [hX₁] at hri
    injection hri with hsX
    subst hsX
    have hnames : ((setGroup r₁ iX g).map full_name) = r.map full_name := by
      rw [ros_ext_names (setGroup_ext g hX₁ (hall X hXmem)),
        ros_ext_names hext₁]
    rcases hcase with ⟨hcnone, hout⟩ | ⟨cfn', hc', hf, hout⟩ |
      ⟨cfn', j, hc', hf, hj, hout⟩ | ⟨cfn', j, comp, hc', hf, hj, hcg, hout⟩ |
      ⟨cfn', j, comp, hc', hf, hj, hcg, hout⟩
    · exfalso
      rw [hc] at hcnone
      cases hcnone
    · rw [hag, hdec1, assignLoop_cons_err _ hout]
    · exfalso
      obtain ⟨t, htj, -⟩ := findIdxByName_some hf
      rw [hj] at htj
      cases htj
    · exfalso
      rw [hc] at hc'
      injection hc' with hcc
      obtain ⟨t, htj, htn⟩ := findIdxByName_some hf
      have ht_mem : t ∈ setGroup r₁ iX g := List.getElem?_mem htj
      have : full_name t ∈ r.map full_name := by
        rw [← hnames]
        exact List.mem_map.mpr ⟨t, ht_mem, rfl⟩
      obtain ⟨u, hu, huname⟩ := List.mem_map.mp this
      exact hmissing u hu (by rw [huname, htn, ← hcc])
    · exfalso
      rw [hc] at hc'
      injection hc' with hcc
      obtain ⟨t, htj, htn⟩ := findIdxByName_some hf
      have ht_mem : t ∈ setGroup r₁ iX g := List.getElem?_mem htj
      have : full_name t ∈ r.map full_name := by
        rw [← hnames]
        exact List.mem_map.mpr ⟨t, ht_mem, rfl⟩
      obtain ⟨u, hu, huname⟩ := List.mem_map.mp this
      exact hmissing u hu (by rw [huname, htn, ← hcc])

/-- C3: the selected turn-group is, among the leaf groups whose label starts
with the student's macro-group (in `GROUPS` enumeration order, since the
count dict is keyed by `GROUPS`), the first one attaining the minimum
occupancy: every group in the subset has count ≥ the selected one and every
group listed earlier has strictly greater count.  In particular four
unpaired A1 students land, in iteration order, on
`A1-1-1, A1-1-2, A1-2-1, A1-2-2`. -/
theorem c3_min_selection :
    (∀ (c : List (String × Nat)) (m g : String),
      c.map Prod.fst = GROUPS → argmin (dict_subset c m) = some g →
      (dict_subset c m).map Prod.fst =
          GROUPS.filter (fun x => py_startswith x m) ∧
        ∃ pre w post, dict_subset c m = pre ++ (g, w) :: post ∧
          (∀ kv ∈ dict_subset c m, w ≤ kv.2) ∧ (∀ kv ∈ pre, w < kv.2)) ∧
    (assign_groups fourA1).1.map (fun s => s.group) =
      [some "A1-1-1", some "A1-1-2", some "A1-2-1", some "A1-2-2"] := by
  constructor
  · intro c m g hkeys ha
    constructor
    · rw [← hkeys, List.filter_map]
      rfl
    · exact argmin_first ha
  · decide

/-- Witness for C3 at the initial count dict, macro-group A1. -/
theorem c3_min_selection_witness :
    (dict_subset initCounts "A1").map Prod.fst =
        GROUPS.filter (fun x => py_startswith x "A1") ∧
      ∃ pre w post, dict_subset initCounts "A1" = pre ++ ("A1-1-1", w) :: post ∧
        (∀ kv ∈ dict_subset initCounts "A1", w ≤ kv.2) ∧
        (∀ kv ∈ pre, w < kv.2) :=
  c3_min_selection.1 initCounts "A1" "A1-1-1" (by decide) (by decide)

/-- C4: when a run of `assign_groups` completes, a second run leaves every
student's assigned group unchanged (all students are assigned, so the second
pass skips each of them). -/
theorem c4_idempotent : ∀ r : List Student, (assign_groups r).2.2 = none →
    (assign_groups ((assign_groups r).1)).1 = (assign_groups r).1 := by
  intro r herr
  have hlen : (assign_groups r).1.length = r.length :=
    (assignLoop_ext (List.range r.length) r initCounts).1
  have hall : ∀ s ∈ (assign_groups r).1, s.group.isSome := by
    intro s hs
    obtain ⟨i, hi⟩ := List.mem_iff_getElem?.mp hs
    have hilt : i < (assign_groups r).1.length := by
      by_contra hge
      rw [List.getElem?_eq_none (by omega)] at hi
      cases hi
    exact assignLoop_all_assigned (List.range r.length) r initCounts herr i
      (List.mem_range.mpr (by omega)) (by omega) s hi
  have hnoop := assignLoop_noop
    (List.range ((assign_groups r).1.length)) initCounts hall
  have : assign_groups ((assign_groups r).1) =
      ((assign_groups r).1, initCounts, none) := hnoop
  rw [this]

/-- Witness for C4 on the concrete two-student mutual-pair roster. -/
theorem c4_idempotent_witness :
    (assign_groups ((assign_groups mutualRoster).1)).1 =
      (assign_groups mutualRoster).1 :=
  c4_idempotent mutualRoster (by decide)

/-- C6: `Student` construction always succeeds and keeps the declared
macro-group; the expected macro-group is the override entry when present,
else `MACRO_GROUPS[identifier % 4]`; the validation error fires exactly on a
mismatch. -/
theorem c6_post_init : ∀ (chg : Nat → Option String) (s : Student),
    (mk_student chg s).1 = s ∧
    ((mk_student chg s).2 = true ↔
      s.macro_group ≠ expected_macro_group chg s.identifier) ∧
    (∀ g, chg s.identifier = some g →
      expected_macro_group chg s.identifier = g) ∧
    (chg s.identifier = none →
      expected_macro_group chg s.identifier =
        MACRO_GROUPS.getD (s.identifier % 4) "") := by
  intro chg s
  refine ⟨rfl, ?_, ?_, ?_⟩
  · simp [mk_student, post_init_error]
  · intro g h
    unfold expected_macro_group
    rw [h]
  · intro h
    unfold expected_macro_group
    rw [h]

/-- Witness for C6: identifier 17 with no override has expected macro-group
`MACRO_GROUPS[17 % 4] = MACRO_GROUPS[1] = "B1"`, and the mismatch flag is
exactly the disagreement with the declared value. -/
theorem c6_post_init_witness :
    (mk_student chg0 stu17).1 = stu17 ∧
      ((mk_student chg0 stu17).2 = true ↔
        stu17.macro_group ≠ expected_macro_group chg0 stu17.identifier) ∧
      expected_macro_group chg0 stu17.identifier = "B1" ∧
      expected_macro_group chg0 42 = "B2" :=
  ⟨(c6_post_init chg0 stu17).1, (c6_post_init chg0 stu17).2.1,
    by decide, by decide⟩

/-- C7 corrected: with exactly one companion field set, the companion full
name is NOT absent — it is a string containing "None" — and the student
counts as having a companion. -/
theorem c7_counterexample :
    companion_full_name oneFieldStu = some "Bob None" ∧
      has_companion oneFieldStu = true := by
  decide

/-- C7 amended: the companion full name is the concatenation of the two
companion fields when both are present; it is absent exactly when BOTH
fields are absent (not when only one is); `has_companion` holds exactly
when it is present. -/
theorem c7_companion_full_name_amended : ∀ s : Student,
    (companion_full_name s = none ↔
      s.companion_name = none ∧ s.companion_surname = none) ∧
    (∀ a b, s.companion_name = some a → s.companion_surname = some b →
      companion_full_name s = some (a ++ " " ++ b)) ∧
    (has_companion s = true ↔ companion_full_name s ≠ none) := by
  intro s
  refine ⟨?_, ?_, ?_⟩
  · by_cases h : s.companion_name = none ∧ s.companion_surname = none <;>
      simp [companion_full_name, h]
  · intro a b ha hb
    unfold Student.companion_full_name
    rw [if_neg (by simp [ha])]
    rw [ha, hb]
    rfl
  · unfold Student.has_companion
    rw [Option.isSome_iff_ne_none]

/-- Witness for C7's amended statement at a student with one companion
field. -/
theorem c7_companion_full_name_amended_witness :
    (companion_full_name oneFieldStu = none ↔
      oneFieldStu.companion_name = none ∧
        oneFieldStu.companion_surname = none) ∧
    (∀ a b, oneFieldStu.companion_name = some a →
      oneFieldStu.companion_surname = some b →
      companion_full_name oneFieldStu = some (a ++ " " ++ b)) ∧
    (has_companion oneFieldStu = true ↔
      companion_full_name oneFieldStu ≠ none) :=
  c7_companion_full_name_amended oneFieldStu

/-- C10: when every declared macro-group is one of the four labels the run
never fails via `min` on an empty subset nor via the assertion; and a
concrete roster with macro-group "C9" makes the run fail with the
empty-`min` `ValueError`. -/
theorem c10_precondition_totality :
    (∀ r : List Student, (∀ s ∈ r, s.macro_group ∈ MACRO_GROUPS) →
      (assign_groups r).2.2 ≠ some .emptyMin ∧
        (assign_groups r).2.2 ≠ some .assertFail) ∧
    (assign_groups [badMacStudent]).2.2 = some .emptyMin := by
  constructor
  · intro r hmac
    exact assignLoop_err_kinds (List.range r.length) initCounts_keys hmac
  · decide

/-- Witness for C10's precondition half on the four-student A1 roster. -/
theorem c10_precondition_totality_witness :
    (assign_groups fourA1).2.2 ≠ some .emptyMin ∧
      (assign_groups fourA1).2.2 ≠ some .assertFail :=
  c10_precondition_totality.1 fourA1 (by decide)

/-- C1 corrected: on a cross-macro-group mutual pair the run completes with
a student whose assigned group's macro prefix differs from their declared
macro-group, refuting the unrestricted invariant. -/
theorem c1_counterexample :
    (assign_groups crossRoster).2.2 = none ∧
      ¬ (∀ s ∈ (assign_groups crossRoster).1, ∀ g, s.group = some g →
        py_take2 g = s.macro_group) := by
  decide

/-- C1 amended: after a completed run every student has a non-null assigned
group; and provided every companion reference links students of equal
declared macro-groups (and no group was pre-set), the macro prefix of each
assigned group equals the student's declared macro-group. -/
theorem c1_assignment_invariant_amended : ∀ r : List Student,
    (assign_groups r).2.2 = none →
    (∀ s' ∈ (assign_groups r).1, ∃ g, s'.group = some g) ∧
    ((∀ s ∈ r, s.group = none) → SameMacroPairs r →
      ∀ s' ∈ (assign_groups r).1, ∀ g, s'.group = some g →
        py_take2 g = s'.macro_group) := by
  intro r herr
  constructor
  · intro s' hs'
    obtain ⟨i, hi⟩ := List.mem_iff_getElem?.mp hs'
    have hlen : (assign_groups r).1.length = r.length :=
      (assignLoop_ext (List.range r.length) r initCounts).1
    have hilt : i < (assign_groups r).1.length := by
      by_contra hge
      rw [List.getElem?_eq_none (by omega)] at hi
      cases hi
    have := assignLoop_all_assigned (List.range r.length) r initCounts herr i
      (List.mem_range.mpr (by omega)) (by omega) s' hi
    exact Option.isSome_iff_exists.mp this
  · intro hall hsame
    have hok : PrefixOk r := by
      intro s hs g hg
      rw [hall s hs] at hg
      cases hg
    exact assignLoop_prefixOk (List.range r.length) hok hsame

/-- Witness for C1's amended invariant on the two-student same-macro-group
mutual pair. -/
theorem c1_assignment_invariant_amended_witness :
    (∀ s' ∈ (assign_groups mutualRoster).1, ∃ g, s'.group = some g) ∧
      (∀ s' ∈ (assign_groups mutualRoster).1, ∀ g, s'.group = some g →
        py_take2 g = s'.macro_group) :=
  ⟨(c1_assignment_invariant_amended mutualRoster (by decide)).1,
    (c1_assignment_invariant_amended mutualRoster (by decide)).2
      (by decide) (by unfold SameMacroPairs; decide)⟩

/-- C2 corrected: with a companion name absent from the roster the pass does
NOT complete — it stops with the `KeyError` — although the referencing
student's own group field has already been set in place. -/
theorem c2_counterexample :
    (assign_groups ghostRoster).2.2 = some .companionMissing ∧
      (assign_groups ghostRoster).1.map (fun s => s.group) =
        [some "A2-1-1"] := by
  decide

/-- C2 amended: a student whose declared companion full name is absent from
the roster makes `assign_groups` raise `KeyError` (provided the student is
not pre-empted as someone else's companion before their own iteration, and
macro-groups are valid so no earlier error kind can fire). -/
theorem c2_missing_companion_amended :
    ∀ (r : List Student) (iX : Nat) (X : Student) (cfn : String),
      r[iX]? = some X →
      (∀ s ∈ r, s.macro_group ∈ MACRO_GROUPS) →
      (∀ s ∈ r, s.group = none) →
      companion_full_name X = some cfn →
      (∀ s ∈ r, full_name s ≠ cfn) →
      (∀ k s, r[k]? = some s → k ≠ iX →
        companion_full_name s ≠ some (full_name X)) →
      (assign_groups r).2.2 = some .companionMissing :=
  fun _ _ _ _ hX hmac hall hc hmiss href =>
    missing_companion_err hX hmac hall hc hmiss href

/-- Witness for C2's amended statement on the dangling-companion roster. -/
theorem c2_missing_companion_amended_witness :
    (assign_groups ghostRoster).2.2 = some .companionMissing :=
  c2_missing_companion_amended ghostRoster 0 ghostStudent "Ghost Person"
    (by decide) (by decide) (by decide) (by decide) (by decide)
    (by
      intro k s hk hne
      cases k with
      | zero => exact absurd rfl hne
      | succ n => simp [ghostRoster] at hk)

/-- C5 corrected: a third student declaring one member of a mutual pair as
companion pre-empts that member, so the mutual same-macro-group pair ends up
in different turn-groups. -/
theorem c5_counterexample :
    companion_full_name aliceB2 = some (full_name bobB2) ∧
      companion_full_name bobB2 = some (full_name aliceB2) ∧
      aliceB2.macro_group = bobB2.macro_group ∧
      (assign_groups c5Roster).2.2 = none ∧
      (assign_groups c5Roster).1.map (fun s => s.group) =
        [some "B2-1-1", some "B2-1-2", some "B2-1-1"] ∧
      ("B2-1-2" : String) ≠ "B2-1-1" := by
  decide

/-- C5 amended: a mutual pair ends up in the same turn-group provided no
OTHER student declares either member as companion (so neither is pre-empted
before the pair is processed); the two-student B2 scenario yields one shared
group with its counter at 2 and every other B2 turn-group at 0. -/
theorem c5_mutual_pair_amended :
    (∀ (r : List Student) (iA iB : Nat) (A B : Student),
      r[iA]? = some A → r[iB]? = some B → iA ≠ iB →
      (∀ s ∈ r, s.group = none) →
      (r.map full_name).Nodup →
      companion_full_name A = some (full_name B) →
      companion_full_name B = some (full_name A) →
      A.macro_group = B.macro_group →
      (∀ k s, r[k]? = some s → k ≠ iA → k ≠ iB →
        companion_full_name s ≠ some (full_name A) ∧
        companion_full_name s ≠ some (full_name B)) →
      (assign_groups r).2.2 = none →
      ∃ g A' B', (assign_groups r).1[iA]? = some A' ∧
        (assign_groups r).1[iB]? = some B' ∧
        A'.group = some g ∧ B'.group = some g) ∧
    ((assign_groups mutualRoster).1.map (fun s => s.group) =
        [some "B2-1-1", some "B2-1-1"] ∧
      lookupCount ((assign_groups mutualRoster).2.1) "B2-1-1" = 2 ∧
      ∀ g ∈ GROUPS, py_startswith g "B2" = true → g ≠ "B2-1-1" →
        lookupCount ((assign_groups mutualRoster).2.1) g = 0) := by
  constructor
  · intro r iA iB A B hA hB hne hall hnd hcA hcB hmac href herr
    rcases Nat.lt_or_ge iA iB with hlt | hge
    · exact mutual_pair_aux hlt hA hB hall hnd hcA href herr
    · have hlt : iB < iA := by omega
      obtain ⟨g, B', A', hB', hA', hgB, hgA⟩ :=
        mutual_pair_aux hlt hB hA hall hnd hcB
          (fun k s hk h1 h2 => ⟨(href k s hk h2 h1).2, (href k s hk h2 h1).1⟩)
          herr
      exact ⟨g, A', B', hA', hB', hgA, hgB⟩
  · decide

/-- Witness for C5's amended statement on the two-student mutual pair. -/
theorem c5_mutual_pair_amended_witness :
    ∃ g A' B', (assign_groups mutualRoster).1[0]? = some A' ∧
      (assign_groups mutualRoster).1[1]? = some B' ∧
      A'.group = some g ∧ B'.group = some g :=
  c5_mutual_pair_amended.1 mutualRoster 0 1 aliceB2 bobB2
    (by decide) (by decide) (by decide) (by decide) (by decide)
    (by decide) (by decide) (by decide)
    (by
      intro k s hk h0 h1
      cases k with
      | zero => exact absurd rfl h0
      | succ n =>
        cases n with
        | zero => exact absurd rfl h1
        | succ m => simp [mutualRoster] at hk)
    (by decide)

/-- C8 corrected: the returned dict counts only students assigned DURING the
call — a pre-assigned student is skipped, so the returned count can differ
from the roster occupancy at return time. -/
theorem c8_counterexample :
    (assign_groups preassignedRoster).2.2 = none ∧
      lookupCount ((assign_groups preassignedRoster).2.1) "A1-1-1" = 0 ∧
      occ ((assign_groups preassignedRoster).1) "A1-1-1" = 1 := by
  decide

/-- C8 amended: the returned mapping is keyed by the 24 leaf labels, and
when no student had a group pre-set before the call, each key's value is the
number of students whose assigned group equals that label at return time. -/
theorem c8_returned_counts_amended : ∀ r : List Student,
    ((assign_groups r).2.1).map Prod.fst = GROUPS ∧
    ((∀ s ∈ r, s.group = none) →
      ∀ g, lookupCount ((assign_groups r).2.1) g =
        occ ((assign_groups r).1) g) := by
  intro r
  constructor
  · have h := assignLoop_keys (List.range r.length) r initCounts
    rw [initCounts_keys] at h
    exact h
  · intro hall g
    exact assignLoop_countsMatch (List.range r.length)
      (fun g' => by rw [lookupCount_initCounts, occ_zero_of_all_none hall]) g

/-- Witness for C8's amended statement on the four-student A1 roster. -/
theorem c8_returned_counts_amended_witness :
    ((assign_groups fourA1).2.1).map Prod.fst = GROUPS ∧
      ∀ g, lookupCount ((assign_groups fourA1).2.1) g =
        occ ((assign_groups fourA1).1) g :=
  ⟨(c8_returned_counts_amended fourA1).1,
    (c8_returned_counts_amended fourA1).2 (by decide)⟩

/-- C9: within each macro-group the six turn-group occupancies returned by
the run pairwise differ by at most 2 (the size of a companion pair), and by
at most 1 when no student has a companion (no pair is ever co-assigned). -/
theorem c9_bounded_imbalance : ∀ r : List Student,
    Spread 2 ((assign_groups r).2.1) ∧
    ((∀ s ∈ r, has_companion s = false) →
      Spread 1 ((assign_groups r).2.1)) := by
  intro r
  constructor
  · exact assignLoop_spread (List.range r.length) initCounts_keys
      (spread_init 2) (by omega) (Or.inl (by omega))
  · intro h
    refine assignLoop_spread (List.range r.length) initCounts_keys
      (spread_init 1) (by omega) (Or.inr ?_)
    intro s hs
    have hc := h s hs
    unfold Student.has_companion at hc
    cases hcc : companion_full_name s with
    | none => rfl
    | some cfn =>
      rw [hcc] at hc
      cases hc

/-- Witness for C9 on the four-student A1 roster (no companions). -/
theorem c9_bounded_imbalance_witness :
    Spread 2 ((assign_groups fourA1).2.1) ∧
      Spread 1 ((assign_groups fourA1).2.1) :=
  ⟨(c9_bounded_imbalance fourA1).1,
    (c9_bounded_imbalance fourA1).2 (by decide)⟩

end Mkgrp
